import Mathlib

/-!
# smallsh: a shallow embedding of `smallsh.c`

The shell's globals become the record `Shell`, every C function becomes a Lean
function of the same name that threads that record, and the operating system
(getline, fork, waitpid, open, dup2, execvp, chdir, getenv) is a record of
answers, `Kernel`, that the functions consult.

A C string is the list of its characters, terminating NUL excluded.  A `char**`
argument vector is the list of its initialised slots, `none` standing for the
NULL pointer.  An access outside an array ends the execution in a `Fault`; `open`
on a NULL path returns -1 like any failing open.  Loops whose C form has no
syntactic bound run on fuel taken from the length of their input.
-/

namespace Smallsh

/-- Characters of a NUL-terminated string, the terminator excluded. -/
abbrev CString := List Char

/-- Constant `LINE_MAX` of the source. -/
def LINE_MAX : Nat := 2046

/-- Constant `ARG_MAX` of the source: the number of slots parseLine allocates. -/
def ARG_MAX : Nat := 512

/-- Number of slots of the global `bgArray`. -/
def BG_SLOTS : Nat := 100

/-- Value of `EXIT_FAILURE`. -/
def EXIT_FAILURE : Nat := 1

/-- Ways an execution leaves defined behaviour. -/
inductive Fault
  | outOfBounds
  | outOfFuel
  deriving DecidableEq, Repr

/-- Dispositions of SIGINT used by the shell. -/
inductive Disposition
  | SIG_IGN
  | SIG_DFL
  deriving DecidableEq, Repr

/-- The globals of smallsh.c. -/
structure Shell where
  bgFlag : Int
  status : Int
  argCount : Int
  bgCount : Int
  bgArray : List Int
  sa_handler : Disposition
  deriving DecidableEq, Repr

/-- The globals as the C initialisers leave them at program start. -/
def Shell.initial : Shell :=
  { bgFlag := 0, status := 0, argCount := 0, bgCount := 0,
    bgArray := List.replicate BG_SLOTS 0, sa_handler := Disposition.SIG_DFL }

/-- Flags given to `open`. -/
inductive OFlag
  | O_RDONLY
  | O_WRONLY
  | O_CREAT
  | O_TRUNC
  deriving DecidableEq, Repr

/-- An `open` call: path, flags, and the mode argument when one is passed. -/
structure OpenFile where
  path : CString
  flags : List OFlag
  mode : Option Nat
  deriving DecidableEq, Repr

/-- Wait-status macros of `<sys/wait.h>`; the header is not part of the repository. -/
structure WaitMacros where
  WIFEXITED : Int → Bool
  WEXITSTATUS : Int → Int
  WIFSIGNALED : Int → Bool
  WTERMSIG : Int → Int

/-- Encoding of wait statuses used by Linux and glibc (`bits/waitstatus.h`):
low seven bits hold the terminating signal, bit 7 the core-dump flag, bits 8-15
the exit code. -/
def glibcWait : WaitMacros :=
  { WIFEXITED := fun s => s % 128 == 0
    WEXITSTATUS := fun s => (s / 256) % 256
    WIFSIGNALED := fun s => decide (1 ≤ s % 128 ∧ s % 128 ≤ 126)
    WTERMSIG := fun s => s % 128 }

/-- Answers of the operating system during one shell cycle. -/
structure Kernel where
  /-- Bytes that getline stores in the buffer. -/
  getline : List Char
  /-- Return value of fork. -/
  fork : Int
  /-- Status collected by a blocking waitpid on the given pid. -/
  waitpid : Int → Int
  /-- Status collected by waitpid with WNOHANG when its return value is positive. -/
  waitpidNoHang : Int → Option Int
  /-- Whether the given open call succeeds. -/
  openOk : OpenFile → Bool
  /-- Whether dup2 of the given open file onto the given descriptor succeeds. -/
  dup2Ok : OpenFile → Nat → Bool
  /-- Whether execvp replaces the process image. -/
  execOk : Option CString → List CString → Bool
  /-- Value of getenv("HOME"). -/
  home : Option CString
  /-- Whether chdir to the given path succeeds. -/
  chdirOk : Option CString → Bool
  /-- Wait-status macros of the platform. -/
  wait : WaitMacros

/-- What the shell process does to the outside world, in order. -/
inductive Event
  | printf (fmt : String) (args : List Int)
  | perror (s : String)
  | chdir (path : Option CString)
  | fork (spawnpid : Int)
  deriving DecidableEq, Repr

/-- Value of a call to an `int` function: a returned value, or none when control
reaches the closing brace without a return statement. -/
inductive RetVal
  | value (v : Int)
  | indeterminate
  deriving DecidableEq, Repr

/-- State of the forked child between fork and execvp. -/
structure Proc where
  args : List (Option CString)
  stdin : Option OpenFile
  stdout : Option OpenFile
  sigint : Disposition
  deriving DecidableEq, Repr

/-- Result of a function that runs in the child and may call exit. -/
inductive Step (α : Type)
  | done (a : α)
  | exit (perror : String) (code : Nat)
  | fault (f : Fault)
  deriving DecidableEq, Repr

/-- How the forked child ends: the execvp call it makes, or an exit before it. -/
inductive ChildEnd
  | execvp (file : Option CString) (argv : List CString)
      (stdin stdout : Option OpenFile) (sigint : Disposition) (replaced : Bool)
  | exit (perror : String) (code : Nat)
  | fault (f : Fault)
  deriving DecidableEq, Repr

/-- Result of a call made by the shell process. -/
inductive Outcome
  | returned (sh : Shell) (out : List Event) (ret : RetVal)
  | shellExit (out : List Event) (code : Nat)
  | child (e : ChildEnd)
  | fault (f : Fault)
  deriving DecidableEq, Repr

/-! ## C library -/

/-- The C string stored at the start of a byte buffer. -/
def cString (bytes : List Char) : CString :=
  bytes.takeWhile (fun c => c != Char.ofNat 0)

/-- Model of `strcmp`: zero exactly on equal strings. -/
def strcmp : CString → CString → Int
  | [], [] => 0
  | [], _ :: _ => -1
  | _ :: _, [] => 1
  | a :: as, b :: bs => if a = b then strcmp as bs else (a.toNat : Int) - (b.toNat : Int)

/-- Whether the needle starts the string. -/
def startsWith : CString → CString → Bool
  | _, [] => true
  | [], _ :: _ => false
  | c :: cs, n :: ns => c == n && startsWith cs ns

/-- Model of `strstr`: the suffix at the first occurrence of the needle, or NULL. -/
def strstr : CString → CString → Option CString
  | [], needle => if needle = [] then some [] else none
  | c :: cs, needle => if startsWith (c :: cs) needle then some (c :: cs) else strstr cs needle

/-- Skips the leading characters that are in the delimiter set (`strspn`). -/
def skipDelims (delim : CString) : CString → CString
  | [] => []
  | c :: cs => if c ∈ delim then skipDelims delim cs else c :: cs

/-- Model of `strtok` on the string at the saved position: the next token and the
new saved position, or NULL when only delimiters remain. -/
def strtok (delim : CString) (s : CString) : Option (CString × CString) :=
  match skipDelims delim s with
  | [] => none
  | t => some (t.takeWhile (fun c => decide (c ∉ delim)),
               (t.dropWhile (fun c => decide (c ∉ delim))).tail)

/-- Reads slot `i` of an array. -/
def load {α : Type} (a : List α) (i : Int) : Except Fault α :=
  if 0 ≤ i then
    match a.get? i.toNat with
    | some v => Except.ok v
    | none => Except.error Fault.outOfBounds
  else Except.error Fault.outOfBounds

/-- Writes slot `i` of an array. -/
def store {α : Type} (a : List α) (i : Int) (v : α) : Except Fault (List α) :=
  if 0 ≤ i ∧ i.toNat < a.length then Except.ok (a.set i.toNat v)
  else Except.error Fault.outOfBounds

/-! ## Tokenizer -/

/-- Result of parseLine: the initialised slots of `arguments` and the global `argCount`. -/
structure Parsed where
  arguments : List (Option CString)
  argCount : Int
  deriving DecidableEq, Repr

/-- The while loop of parseLine; `index` is the number of slots written so far. -/
def parseLoop : Nat → Option (CString × CString) → List (Option CString) → Nat →
    Except Fault Parsed
  | _, none, arguments, index =>
    if index < ARG_MAX then Except.ok ⟨arguments ++ [none], index⟩
    else Except.error Fault.outOfBounds
  | 0, some _, _, _ => Except.error Fault.outOfFuel
  | fuel + 1, some (parsedLine, saved), arguments, index =>
    if index < ARG_MAX then
      parseLoop fuel (strtok [' ', '\n'] saved) (arguments ++ [some parsedLine]) (index + 1)
    else Except.error Fault.outOfBounds

/-- Function `parseLine` of the source. -/
def parseLine (buffer : CString) : Except Fault Parsed :=
  parseLoop buffer.length (strtok [' ', '\n'] buffer) [] 0

/-- Function `userLine` of the source: the buffer read and the new bgFlag. -/
def userLine (k : Kernel) (sh : Shell) : Shell × List Event × CString :=
  let sh0 := { sh with bgFlag := 0 }
  let buffer := cString k.getline
  let sh1 := if (strstr buffer ['&']).isSome then { sh0 with bgFlag := 1 } else sh0
  (sh1, [Event.printf ": " []], buffer)

/-! ## Built-in commands -/

/-- Function `builtin_changeDir` of the source. -/
def builtin_changeDir (k : Kernel) (sh : Shell) (argParams : List (Option CString)) : Outcome :=
  match load argParams 1 with
  | Except.error f => Outcome.fault f
  | Except.ok none => Outcome.returned sh [Event.chdir k.home] (RetVal.value 1)
  | Except.ok (some a1) =>
    match load argParams 2 with
    | Except.error f => Outcome.fault f
    | Except.ok (some _) =>
      Outcome.returned sh
        [Event.printf "command [arg1 arg2 ...] [< input_file] [> output_file] [&]\n" []]
        (RetVal.value 1)
    | Except.ok none =>
      if k.chdirOk (some a1) then
        Outcome.returned sh [Event.chdir (some a1)] (RetVal.value 1)
      else
        Outcome.returned sh [Event.chdir (some a1), Event.perror "chdir"] (RetVal.value 1)

/-- Function `builtin_status` of the source. -/
def builtin_status (k : Kernel) (sh : Shell) : Outcome :=
  if k.wait.WIFEXITED sh.status then
    Outcome.returned sh
      [Event.printf "Exited with status: %d\n" [k.wait.WEXITSTATUS sh.status]] (RetVal.value 1)
  else
    Outcome.returned sh [Event.printf "terminated by signal: %d\n" [sh.status]] (RetVal.value 1)

/-- Function `builtin_exit` of the source. -/
def builtin_exit (sh : Shell) : Outcome :=
  Outcome.returned sh [Event.printf "Exiting shell...\n" []] (RetVal.value 0)

/-! ## Background job tracker -/

/-- The for loop of checkBG: `n` iterations remain, `i` is the loop variable. -/
def checkBGLoop (k : Kernel) : Nat → Int → Shell → List Event →
    Except Fault (Shell × List Event)
  | 0, _, sh, out => Except.ok (sh, out)
  | n + 1, i, sh, out =>
    match load sh.bgArray i with
    | Except.error f => Except.error f
    | Except.ok pid =>
      match k.waitpidNoHang pid with
      | none => checkBGLoop k n (i + 1) sh out
      | some st =>
        let exited :=
          if k.wait.WIFEXITED st then
            [Event.printf "Background Process PID: %d exited with status of %d\n"
              [pid, k.wait.WEXITSTATUS st]]
          else []
        let signaled :=
          if k.wait.WIFSIGNALED st then
            [Event.printf "Background Process PID: %d terminated by signal %d\n"
              [pid, k.wait.WTERMSIG st]]
          else []
        checkBGLoop k n (i + 1) { sh with status := st } (out ++ exited ++ signaled)

/-- Function `checkBG` of the source. -/
def checkBG (k : Kernel) (sh : Shell) : Except Fault (Shell × List Event) :=
  if sh.bgCount < 1 then Except.ok (sh, [])
  else checkBGLoop k sh.bgCount.toNat 0 sh []

/-! ## Redirection scanner and applier -/

/-- The while loop of getInputRD from index `i`, on the slots from `i` on. -/
def getInputRDFrom : List (Option CString) → Int → Except Fault Int
  | [], _ => Except.error Fault.outOfBounds
  | none :: _, _ => Except.ok (-1)
  | some a :: rest, i => if strcmp a ['<'] = 0 then Except.ok i else getInputRDFrom rest (i + 1)

/-- Function `getInputRD` of the source. -/
def getInputRD (uncheckedArgsIn : List (Option CString)) : Except Fault Int :=
  getInputRDFrom uncheckedArgsIn 0

/-- The while loop of getOutputRD from index `i`, on the slots from `i` on. -/
def getOutputRDFrom : List (Option CString) → Int → Except Fault Int
  | [], _ => Except.error Fault.outOfBounds
  | none :: _, _ => Except.ok (-1)
  | some a :: rest, i => if strcmp a ['>'] = 0 then Except.ok i else getOutputRDFrom rest (i + 1)

/-- Function `getOutputRD` of the source. -/
def getOutputRD (uncheckedArgsOut : List (Option CString)) : Except Fault Int :=
  getOutputRDFrom uncheckedArgsOut 0

/-- System call `open`: the open file, or none for the return value -1. -/
def sysOpen (k : Kernel) (f : OpenFile) : Option OpenFile :=
  if k.openOk f then some f else none

/-- System call `dup2` onto descriptor `newfd`: whether it succeeds. -/
def sysDup2 (k : Kernel) (fd : Option OpenFile) (newfd : Nat) : Bool :=
  match fd with
  | none => false
  | some f => k.dup2Ok f newfd

/-- The file `/dev/null` opened write-only, as the background branch opens it. -/
def devNull : OpenFile :=
  { path := ['/', 'd', 'e', 'v', '/', 'n', 'u', 'l', 'l'], flags := [OFlag.O_WRONLY], mode := none }

/-- Result of read(2) on an open file, as POSIX fixes it for the files the shell binds: a
descriptor that was not opened for reading fails with EBADF; /dev/null opened for reading
is at end of input at once; any other file yields its bytes. -/
inductive ReadResult
  | EBADF
  | endOfInput
  | bytes
  deriving DecidableEq, Repr

/-- System call `read` on an open file. -/
def sysRead (f : OpenFile) : ReadResult :=
  if OFlag.O_RDONLY ∈ f.flags then
    if f.path = devNull.path then ReadResult.endOfInput else ReadResult.bytes
  else ReadResult.EBADF

/-- Result of write(2) on an open file, as POSIX fixes it for the files the shell binds: a
descriptor that was not opened for writing fails with EBADF; /dev/null opened for writing
discards the bytes; any other file stores them. -/
inductive WriteResult
  | EBADF
  | discarded
  | stored
  deriving DecidableEq, Repr

/-- System call `write` on an open file. -/
def sysWrite (f : OpenFile) : WriteResult :=
  if OFlag.O_WRONLY ∈ f.flags then
    if f.path = devNull.path then WriteResult.discarded else WriteResult.stored
  else WriteResult.EBADF

/-- Function `doRedirection` of the source; `sh` supplies the globals bgFlag and argCount.
When the marker is the last token, the slot after it is the NULL terminator: open on a
NULL path returns -1, and the child prints the error and exits. -/
def doRedirection (k : Kernel) (sh : Shell) (p : Proc) (iRD oRD : Int) : Step Proc :=
  if iRD > -1 then
    match load p.args (iRD + 1) with
    | Except.error f => Step.fault f
    | Except.ok none => Step.exit "open" EXIT_FAILURE
    | Except.ok (some path) =>
      let fd := sysOpen k { path := path, flags := [OFlag.O_RDONLY], mode := none }
      if fd = none then Step.exit "open" EXIT_FAILURE
      else if sysDup2 k fd 0 = false then Step.exit "dup2" EXIT_FAILURE
      else
        match store p.args iRD none with
        | Except.error f => Step.fault f
        | Except.ok args => Step.done { p with args := args, stdin := fd }
  else if oRD > -1 then
    match load p.args (oRD + 1) with
    | Except.error f => Step.fault f
    | Except.ok none => Step.exit "open" EXIT_FAILURE
    | Except.ok (some path) =>
      let fd := sysOpen k
        { path := path, flags := [OFlag.O_WRONLY, OFlag.O_CREAT, OFlag.O_TRUNC], mode := some 0o664 }
      if fd = none then Step.exit "open" EXIT_FAILURE
      else if sysDup2 k fd 1 = false then Step.exit "dup2" EXIT_FAILURE
      else
        match store p.args oRD none with
        | Except.error f => Step.fault f
        | Except.ok args => Step.done { p with args := args, stdout := fd }
  else if sh.bgFlag = 1 ∧ (iRD < 0 ∨ oRD < 0) then
    let fdNull := sysOpen k devNull
    let afterIn : Step Proc :=
      if iRD < 0 then
        if fdNull = none then Step.exit "open" EXIT_FAILURE
        else if sysDup2 k fdNull 0 = false then Step.exit "dup2" EXIT_FAILURE
        else Step.done { p with stdin := fdNull }
      else Step.done p
    match afterIn with
    | Step.exit s c => Step.exit s c
    | Step.fault f => Step.fault f
    | Step.done p1 =>
      let afterOut : Step Proc :=
        if oRD < 0 then
          if sysDup2 k fdNull 1 = false then Step.exit "dup2" EXIT_FAILURE
          else Step.done { p1 with stdout := fdNull }
        else Step.done p1
      match afterOut with
      | Step.exit s c => Step.exit s c
      | Step.fault f => Step.fault f
      | Step.done p2 =>
        match store p2.args (sh.argCount - 1) none with
        | Except.error f => Step.fault f
        | Except.ok args => Step.done { p2 with args := args }
  else Step.done p

/-! ## Process launcher -/

/-- The strings execvp reads from an argument vector: the slots before the first NULL. -/
def argvOf : List (Option CString) → Except Fault (List CString)
  | [] => Except.error Fault.outOfBounds
  | none :: _ => Except.ok []
  | some a :: rest =>
    match argvOf rest with
    | Except.error f => Except.error f
    | Except.ok as => Except.ok (a :: as)

/-- Child-side statements shared by both cases of runProcess (source lines 297-307 and
334-344): scan, redirect, execvp.  When execvp returns, the child calls perror and
exit(EXIT_FAILURE); that is the end `execvp` with `replaced` false. -/
def redirectAndExec (k : Kernel) (sh : Shell) (p : Proc) : ChildEnd :=
  match getInputRD p.args with
  | Except.error f => ChildEnd.fault f
  | Except.ok inputRed =>
    match getOutputRD p.args with
    | Except.error f => ChildEnd.fault f
    | Except.ok outputRed =>
      match doRedirection k sh p inputRed outputRed with
      | Step.fault f => ChildEnd.fault f
      | Step.exit s c => ChildEnd.exit s c
      | Step.done q =>
        match load q.args 0, argvOf q.args with
        | Except.ok file, Except.ok argv =>
          ChildEnd.execvp file argv q.stdin q.stdout q.sigint (k.execOk file argv)
        | Except.error f, _ => ChildEnd.fault f
        | _, Except.error f => ChildEnd.fault f

/-- Function `runProcess` of the source. -/
def runProcess (k : Kernel) (sh : Shell) (argsPassed : List (Option CString)) : Outcome :=
  if sh.bgFlag = 0 then
    let spawnpid := k.fork
    if spawnpid < 0 then
      Outcome.shellExit [Event.fork spawnpid, Event.perror "fork"] EXIT_FAILURE
    else if spawnpid = 0 then
      Outcome.child (redirectAndExec k { sh with sa_handler := Disposition.SIG_DFL }
        { args := argsPassed, stdin := none, stdout := none, sigint := Disposition.SIG_DFL })
    else
      Outcome.returned { sh with status := k.waitpid spawnpid } [Event.fork spawnpid]
        (RetVal.value 1)
  else if sh.bgFlag = 1 then
    let spawnpid := k.fork
    if spawnpid < 0 then
      Outcome.shellExit [Event.fork spawnpid, Event.perror "fork"] EXIT_FAILURE
    else if spawnpid = 0 then
      Outcome.child (redirectAndExec k sh
        { args := argsPassed, stdin := none, stdout := none, sigint := sh.sa_handler })
    else
      match store sh.bgArray sh.bgCount spawnpid with
      | Except.error f => Outcome.fault f
      | Except.ok bgArray =>
        Outcome.returned { sh with bgArray := bgArray, bgCount := sh.bgCount + 1 }
          [Event.fork spawnpid, Event.printf "Background process, pid: %d created.\n" [spawnpid]]
          (RetVal.value 1)
  else Outcome.returned sh [] (RetVal.value 1)

/-! ## Dispatcher and shell loop -/

/-- A call whose value the caller does not return: the effects stay, the value is lost. -/
def Outcome.withoutValue : Outcome → Outcome
  | Outcome.returned sh out _ => Outcome.returned sh out RetVal.indeterminate
  | o => o

/-- Function `runArgs` of the source.  Its last branch calls runProcess and reaches the
closing brace without a return statement. -/
def runArgs (k : Kernel) (sh : Shell) (argsPassed : List (Option CString)) : Outcome :=
  match load argsPassed 0 with
  | Except.error f => Outcome.fault f
  | Except.ok none => Outcome.returned sh [] (RetVal.value 1)
  | Except.ok (some a0) =>
    if (strstr a0 ['#']).isSome then Outcome.returned sh [] (RetVal.value 1)
    else if strcmp a0 ['c', 'd'] = 0 then builtin_changeDir k sh argsPassed
    else if strcmp a0 ['e', 'x', 'i', 't'] = 0 then builtin_exit sh
    else if strcmp a0 ['s', 't', 'a', 't', 'u', 's'] = 0 then builtin_status k sh
    else (runProcess k sh argsPassed).withoutValue

/-- Prepends the events of earlier statements to a call result of the shell process. -/
def Outcome.after (out : List Event) : Outcome → Outcome
  | Outcome.returned sh out1 ret => Outcome.returned sh (out ++ out1) ret
  | Outcome.shellExit out1 code => Outcome.shellExit (out ++ out1) code
  | o => o

/-- Lines 127-133 of doShell: read a line, tokenize it, dispatch it. -/
def runLine (k : Kernel) (sh : Shell) : Outcome :=
  match userLine k sh with
  | (sh1, out, input) =>
    match parseLine input with
    | Except.error f => Outcome.fault f
    | Except.ok parsed =>
      (runArgs k { sh1 with argCount := parsed.argCount } parsed.arguments).after out

/-- Body of the do-while loop of doShell: one shell cycle. -/
def shellCycle (k : Kernel) (sh : Shell) : Outcome :=
  match checkBG k { sh with sa_handler := Disposition.SIG_IGN } with
  | Except.error f => Outcome.fault f
  | Except.ok (sh1, out) => (runLine k sh1).after out

/-- How a run of doShell over a finite sequence of cycles stands. -/
inductive Run
  | finished (sh : Shell) (out : List Event)
  | running (sh : Shell) (out : List Event)
  | stopped (o : Outcome)
  deriving DecidableEq, Repr

/-- Function `doShell` of the source, run on the answers of successive cycles.  The loop
ends when `shell` is zero; when runArgs returned no value, `shell` holds `leftover`. -/
def doShell (leftover : Int) : List Kernel → Shell → List Event → Run
  | [], sh, out => Run.running sh out
  | k :: ks, sh, out =>
    match shellCycle k sh with
    | Outcome.returned sh1 out1 ret =>
      let shell : Int := match ret with
        | RetVal.value v => v
        | RetVal.indeterminate => leftover
      if shell = 0 then Run.finished sh1 (out ++ out1)
      else doShell leftover ks sh1 (out ++ out1)
    | o => Run.stopped (o.after out)

/-! ## Notions of the specification -/

/-- Wording of the specification: the tokens of a line are its maximal runs of characters
other than space and newline, in order of appearance.  Splitting at every space or newline
yields the (possibly empty) stretches between delimiters; the non-empty ones are the
maximal runs. -/
def maximalRuns (line : CString) : List CString :=
  (line.splitOnP (fun c => c == ' ' || c == '\n')).filter (fun t => !t.isEmpty)

/-- The argument vector that a call result hands to execvp, when execvp is reached. -/
def Outcome.execArgv : Outcome → Option (List CString)
  | Outcome.child (ChildEnd.execvp _ argv _ _ _ _) => some argv
  | _ => none

/-- A kernel for worked examples: getline stores `line`, fork returns `pid`, every other
call succeeds, no background child has changed state, wait statuses are encoded as on
Linux. -/
def Kernel.answering (line : String) (pid : Int) : Kernel :=
  { getline := line.toList
    fork := pid
    waitpid := fun _ => 0
    waitpidNoHang := fun _ => none
    openOk := fun _ => true
    dup2Ok := fun _ _ => true
    execOk := fun _ _ => true
    home := none
    chdirOk := fun _ => true
    wait := glibcWait }

/-- Value of the global bgCount where a run of doShell stands, while the shell is running. -/
def Run.bgCount : Run → Option Int
  | Run.running sh _ => some sh.bgCount
  | _ => none

/-- Wording of the specification, stated on the line itself: `Tokenized line toks` holds
when the line reads gap, token, gap, token, ..., gap, where every gap consists of spaces
and newlines only, every token is non-empty and holds neither, and what follows a token is
the end of the line or a delimiter; so each token is a run that cannot be extended. -/
inductive Tokenized : CString → List CString → Prop
  | blank (gap : CString) (hgap : ∀ c ∈ gap, c = ' ' ∨ c = '\n') : Tokenized gap []
  | token (gap t rest : CString) (toks : List CString)
      (hgap : ∀ c ∈ gap, c = ' ' ∨ c = '\n')
      (hne : t ≠ []) (ht : ∀ c ∈ t, c ≠ ' ' ∧ c ≠ '\n')
      (hrest : ∀ d ∈ rest.head?, d = ' ' ∨ d = '\n')
      (h : Tokenized rest toks) : Tokenized (gap ++ t ++ rest) (t :: toks)

/-! ## Tokenizer lemmas -/

theorem notDelim_eq (c : Char) :
    decide (c ∉ [' ', '\n']) = !(c == ' ' || c == '\n') := by
  by_cases h1 : c = ' ' <;> by_cases h2 : c = '\n' <;> simp [h1, h2]

theorem splitOnP_takeWhile (p : Char → Bool) (l : List Char) :
    l.splitOnP p = l.takeWhile (fun c => !p c) ::
      (match l.dropWhile (fun c => !p c) with
       | [] => []
       | _ :: r => r.splitOnP p) := by
  induction l with
  | nil => simp
  | cons c cs ih =>
    rw [List.splitOnP_cons]
    by_cases h : p c = true
    · simp [h, List.takeWhile, List.dropWhile]
    · have h0 : p c = false := by simpa using h
      rw [ih]
      simp [h0, List.takeWhile, List.dropWhile, List.modifyHead]

theorem maximalRuns_nil : maximalRuns [] = [] := by
  simp [maximalRuns]

theorem maximalRuns_cons_delim (c : Char) (cs : CString) (h : c ∈ [' ', '\n']) :
    maximalRuns (c :: cs) = maximalRuns cs := by
  have hp : (c == ' ' || c == '\n') = true := by
    simp at h; rcases h with h | h <;> simp [h]
  simp [maximalRuns, List.splitOnP_cons, hp]

theorem maximalRuns_cons_token (c : Char) (cs : CString) (h : c ∉ [' ', '\n']) :
    maximalRuns (c :: cs) =
      (c :: cs).takeWhile (fun c => decide (c ∉ [' ', '\n'])) ::
        maximalRuns ((c :: cs).dropWhile (fun c => decide (c ∉ [' ', '\n']))).tail := by
  have hf : (fun c : Char => decide (c ∉ [' ', '\n'])) = fun c => !(c == ' ' || c == '\n') :=
    funext notDelim_eq
  have hc : (!(c == ' ' || c == '\n')) = true := by rw [← notDelim_eq]; simpa using h
  rw [hf]
  unfold maximalRuns
  rw [splitOnP_takeWhile]
  rw [List.filter_cons]
  have hne : (!((c :: cs).takeWhile (fun c => !(c == ' ' || c == '\n'))).isEmpty) = true := by
    simp [List.takeWhile, hc]
  rw [if_pos hne]
  congr 1
  cases hd : (c :: cs).dropWhile (fun c => !(c == ' ' || c == '\n')) with
  | nil => simp
  | cons d r => simp

theorem strtok_none (s : CString) (h : strtok [' ', '\n'] s = none) : maximalRuns s = [] := by
  induction s with
  | nil => exact maximalRuns_nil
  | cons c cs ih =>
    by_cases hc : c ∈ [' ', '\n']
    · rw [maximalRuns_cons_delim c cs hc]
      apply ih
      simpa [strtok, skipDelims, hc] using h
    · simp [strtok, skipDelims, hc] at h

theorem strtok_some (s t r : CString) (h : strtok [' ', '\n'] s = some (t, r)) :
    maximalRuns s = t :: maximalRuns r ∧ r.length < s.length := by
  induction s with
  | nil => simp [strtok, skipDelims] at h
  | cons c cs ih =>
    by_cases hc : c ∈ [' ', '\n']
    · rw [maximalRuns_cons_delim c cs hc]
      have h2 : strtok [' ', '\n'] cs = some (t, r) := by
        simpa [strtok, skipDelims, hc] using h
      have := ih h2
      exact ⟨this.1, by simp; omega⟩
    · have hs : skipDelims [' ', '\n'] (c :: cs) = c :: cs := by simp [skipDelims, hc]
      unfold strtok at h
      rw [hs] at h
      simp only [Option.some.injEq, Prod.mk.injEq] at h
      obtain ⟨ht, hr⟩ := h
      refine ⟨?_, ?_⟩
      · rw [maximalRuns_cons_token c cs hc, ht, hr]
      · rw [← hr]
        have hd : ((c :: cs).dropWhile (fun c => decide (c ∉ [' ', '\n']))).length ≤ cs.length := by
          have hcc : decide (c ∉ [' ', '\n']) = true := by simpa using hc
          have he : (c :: cs).dropWhile (fun c => decide (c ∉ [' ', '\n'])) =
              cs.dropWhile (fun c => decide (c ∉ [' ', '\n'])) := by
            simp only [List.dropWhile, hcc]
          rw [he]
          exact (List.dropWhile_suffix _).length_le
        simp only [List.length_tail, List.length_cons]
        omega

theorem parseLoop_spec (fuel : Nat) : ∀ (s : CString) (arguments : List (Option CString))
    (index : Nat), s.length ≤ fuel → index + (maximalRuns s).length < ARG_MAX →
    parseLoop fuel (strtok [' ', '\n'] s) arguments index =
      Except.ok ⟨arguments ++ (maximalRuns s).map some ++ [none],
        ((index + (maximalRuns s).length : Nat) : Int)⟩ := by
  induction fuel with
  | zero =>
    intro s arguments index hs hi
    have : s = [] := List.length_eq_zero.mp (Nat.le_zero.mp hs)
    subst this
    have hlt : index < ARG_MAX := by simpa [maximalRuns_nil] using hi
    simp [strtok, skipDelims, parseLoop, maximalRuns_nil, hlt]
  | succ fuel ih =>
    intro s arguments index hs hi
    cases h : strtok [' ', '\n'] s with
    | none =>
      have hr := strtok_none s h
      rw [hr] at hi ⊢
      have hlt : index < ARG_MAX := by simpa using hi
      simp [parseLoop, hlt]
    | some tr =>
      obtain ⟨t, r⟩ := tr
      obtain ⟨hr, hlen⟩ := strtok_some s t r h
      rw [hr] at hi ⊢
      simp only [List.length_cons] at hi
      have hlt : index < ARG_MAX := by omega
      simp only [parseLoop, if_pos hlt]
      rw [ih r (arguments ++ [some t]) (index + 1) (by omega) (by omega)]
      simp [Nat.add_assoc, Nat.add_comm 1]

theorem parseLine_ok (line : CString) (h : (maximalRuns line).length ≤ 511) :
    parseLine line =
      Except.ok ⟨(maximalRuns line).map some ++ [none], ((maximalRuns line).length : Int)⟩ := by
  unfold parseLine
  rw [parseLoop_spec line.length line [] 0 (le_refl _) (by simp [ARG_MAX]; omega)]
  simp

theorem parseLoop_overflow (fuel : Nat) : ∀ (s : CString) (arguments : List (Option CString))
    (index : Nat), s.length ≤ fuel → ARG_MAX ≤ index + (maximalRuns s).length →
    parseLoop fuel (strtok [' ', '\n'] s) arguments index = Except.error Fault.outOfBounds := by
  induction fuel with
  | zero =>
    intro s arguments index hs hi
    have : s = [] := List.length_eq_zero.mp (Nat.le_zero.mp hs)
    subst this
    have hge : ¬ index < ARG_MAX := by simpa [maximalRuns_nil] using hi
    simp [strtok, skipDelims, parseLoop, hge]
  | succ fuel ih =>
    intro s arguments index hs hi
    cases h : strtok [' ', '\n'] s with
    | none =>
      have hr := strtok_none s h
      rw [hr] at hi
      have hge : ¬ index < ARG_MAX := by simpa using hi
      simp [parseLoop, hge]
    | some tr =>
      obtain ⟨t, r⟩ := tr
      obtain ⟨hr, hlen⟩ := strtok_some s t r h
      rw [hr] at hi
      simp only [List.length_cons] at hi
      by_cases hlt : index < ARG_MAX
      · simp only [parseLoop, if_pos hlt]
        exact ih r (arguments ++ [some t]) (index + 1) (by omega) (by omega)
      · simp only [parseLoop, if_neg hlt]

theorem parseLine_overflow (line : CString) (h : 512 ≤ (maximalRuns line).length) :
    parseLine line = Except.error Fault.outOfBounds := by
  unfold parseLine
  exact parseLoop_overflow line.length line [] 0 (le_refl _) (by simp [ARG_MAX]; omega)

/-! ## C library lemmas -/

theorem strcmp_eq_zero_iff (a b : CString) : strcmp a b = 0 ↔ a = b := by
  induction a generalizing b with
  | nil => cases b <;> simp [strcmp]
  | cons x xs ih =>
    cases b with
    | nil => simp [strcmp]
    | cons y ys =>
      by_cases hxy : x = y
      · simp [strcmp, hxy, ih]
      · have hne : ((x.toNat : Int) - (y.toNat : Int)) ≠ 0 := by
          intro h0
          apply hxy
          have hn : x.toNat = y.toNat := by omega
          rw [← Char.ofNat_toNat x, ← Char.ofNat_toNat y, hn]
        simp [strcmp, hxy, hne]

theorem strstr_isSome_iff (s : CString) (c : Char) : (strstr s [c]).isSome = true ↔ c ∈ s := by
  induction s with
  | nil => simp [strstr]
  | cons x xs ih =>
    by_cases hx : x = c
    · simp [strstr, startsWith, hx]
    · have hx2 : ¬ c = x := fun h => hx h.symm
      simp [strstr, startsWith, hx, hx2, ih]

theorem load_natCast {α : Type} (a : List α) (n : Nat) (v : α) (h : a.get? n = some v) :
    load a (n : Int) = Except.ok v := by
  have h2 : a[n]? = some v := by simpa using h
  simp [load, h2]

theorem store_natCast {α : Type} (a : List α) (n : Nat) (v : α) (h : n < a.length) :
    store a (n : Int) v = Except.ok (a.set n v) := by
  simp [store, h]

/-! ## Scanner lemmas -/

theorem indexOf_head (m : CString) (ts : List CString) : (m :: ts).indexOf m = 0 := by
  simp [List.indexOf_cons]

theorem indexOf_tail (m t : CString) (ts : List CString) (h : ¬ t = m) :
    (t :: ts).indexOf m = ts.indexOf m + 1 := by
  have hb : (t == m) = false := by simpa using h
  rw [List.indexOf_cons, hb]
  rfl

theorem indexOf_lt (m : CString) (ts : List CString) (h : m ∈ ts) :
    ts.indexOf m < ts.length := by
  induction ts with
  | nil => simp at h
  | cons t ts ih =>
    by_cases ht : t = m
    · subst ht; rw [indexOf_head]; simp
    · rw [indexOf_tail m t ts ht]
      have : m ∈ ts := by
        rcases List.mem_cons.mp h with h1 | h1
        · exact absurd h1.symm ht
        · exact h1
      simp only [List.length_cons]
      have := ih this
      omega

theorem not_mem_take_indexOf (m : CString) (ts : List CString) :
    m ∉ ts.take (ts.indexOf m) := by
  induction ts with
  | nil => simp
  | cons t ts ih =>
    by_cases ht : t = m
    · subst ht; rw [indexOf_head]; simp
    · rw [indexOf_tail m t ts ht, List.take_succ_cons]
      intro hmem
      rcases List.mem_cons.mp hmem with h1 | h1
      · exact ht h1.symm
      · exact ih h1

theorem getInputRDFrom_spec (toks : List CString) (rest : List (Option CString)) (i : Int) :
    getInputRDFrom (toks.map some ++ none :: rest) i =
      Except.ok (if ['<'] ∈ toks then i + (toks.indexOf ['<'] : Nat) else -1) := by
  induction toks generalizing i with
  | nil => simp [getInputRDFrom]
  | cons t ts ih =>
    simp only [List.map_cons, List.cons_append]
    rw [getInputRDFrom]
    by_cases ht : t = ['<']
    · have hs : strcmp t ['<'] = 0 := (strcmp_eq_zero_iff _ _).mpr ht
      rw [if_pos hs, ht, indexOf_head]
      simp
    · have hs : ¬ strcmp t ['<'] = 0 := fun h => ht ((strcmp_eq_zero_iff _ _).mp h)
      have ht2 : ¬ ['<'] = t := fun h => ht h.symm
      rw [if_neg hs, ih, indexOf_tail _ t ts ht]
      by_cases hm : ['<'] ∈ ts
      · have hm2 : ['<'] ∈ t :: ts := List.mem_cons_of_mem _ hm
        rw [if_pos hm, if_pos hm2]
        congr 1; push_cast; ring
      · have hm2 : ['<'] ∉ t :: ts := by simp [ht2, hm]
        rw [if_neg hm, if_neg hm2]

theorem getInputRD_spec (toks : List CString) (rest : List (Option CString)) :
    getInputRD (toks.map some ++ none :: rest) =
      Except.ok (if ['<'] ∈ toks then ((toks.indexOf ['<'] : Nat) : Int) else -1) := by
  simp [getInputRD, getInputRDFrom_spec]

theorem getOutputRDFrom_spec (toks : List CString) (rest : List (Option CString)) (i : Int) :
    getOutputRDFrom (toks.map some ++ none :: rest) i =
      Except.ok (if ['>'] ∈ toks then i + (toks.indexOf ['>'] : Nat) else -1) := by
  induction toks generalizing i with
  | nil => simp [getOutputRDFrom]
  | cons t ts ih =>
    simp only [List.map_cons, List.cons_append]
    rw [getOutputRDFrom]
    by_cases ht : t = ['>']
    · have hs : strcmp t ['>'] = 0 := (strcmp_eq_zero_iff _ _).mpr ht
      rw [if_pos hs, ht, indexOf_head]
      simp
    · have hs : ¬ strcmp t ['>'] = 0 := fun h => ht ((strcmp_eq_zero_iff _ _).mp h)
      have ht2 : ¬ ['>'] = t := fun h => ht h.symm
      rw [if_neg hs, ih, indexOf_tail _ t ts ht]
      by_cases hm : ['>'] ∈ ts
      · have hm2 : ['>'] ∈ t :: ts := List.mem_cons_of_mem _ hm
        rw [if_pos hm, if_pos hm2]
        congr 1; push_cast; ring
      · have hm2 : ['>'] ∉ t :: ts := by simp [ht2, hm]
        rw [if_neg hm, if_neg hm2]

theorem getOutputRD_spec (toks : List CString) (rest : List (Option CString)) :
    getOutputRD (toks.map some ++ none :: rest) =
      Except.ok (if ['>'] ∈ toks then ((toks.indexOf ['>'] : Nat) : Int) else -1) := by
  simp [getOutputRD, getOutputRDFrom_spec]

/-! ## Argument-vector lemmas -/

theorem argvOf_tokens (toks : List CString) (rest : List (Option CString)) :
    argvOf (toks.map some ++ none :: rest) = Except.ok toks := by
  induction toks with
  | nil => simp [argvOf]
  | cons t ts ih => simp [argvOf, ih]

theorem load_zero_tokens (toks : List CString) (rest : List (Option CString)) :
    load (toks.map some ++ none :: rest) 0 = Except.ok toks.head? := by
  cases toks <;> simp [load]

theorem set_marker (toks : List CString) (i : Nat) (h : i < toks.length) :
    (toks.map some ++ [none]).set i none =
      (toks.take i).map some ++ none :: ((toks.drop (i + 1)).map some ++ [none]) := by
  rw [List.set_eq_take_append_cons_drop]
  have hl : i < (toks.map some ++ [none]).length := by simp; omega
  rw [if_pos hl]
  have h1 : (toks.map some ++ [none]).take i = (toks.take i).map some := by
    rw [List.take_append_of_le_length (by simp; omega), List.map_take]
  have h2 : (toks.map some ++ [none]).drop (i + 1) = (toks.drop (i + 1)).map some ++ [none] := by
    rw [List.drop_append_of_le_length (by simp; omega), List.map_drop]
  rw [h1, h2]

theorem set_last (toks : List CString) (h : toks ≠ []) :
    (toks.map some ++ [none]).set (toks.length - 1) none =
      toks.dropLast.map some ++ none :: [none] := by
  have hpos : 0 < toks.length := List.length_pos.mpr h
  rw [set_marker toks (toks.length - 1) (by omega)]
  have h1 : toks.length - 1 + 1 = toks.length := by omega
  rw [h1, List.drop_length, List.dropLast_eq_take]
  simp

/-! ## Redirection lemmas -/

theorem redirectAndExec_input (k : Kernel) (sh : Shell) (toks : List CString)
    (si so : Option OpenFile) (d : Disposition) (f : CString)
    (hlt : ['<'] ∈ toks) (hf : toks.get? (toks.indexOf ['<'] + 1) = some f) :
    redirectAndExec k sh ⟨toks.map some ++ [none], si, so, d⟩ =
      if k.openOk ⟨f, [OFlag.O_RDONLY], none⟩ = false then ChildEnd.exit "open" EXIT_FAILURE
      else if k.dup2Ok ⟨f, [OFlag.O_RDONLY], none⟩ 0 = false then
        ChildEnd.exit "dup2" EXIT_FAILURE
      else
        ChildEnd.execvp (toks.take (toks.indexOf ['<'])).head? (toks.take (toks.indexOf ['<']))
          (some ⟨f, [OFlag.O_RDONLY], none⟩) so d
          (k.execOk (toks.take (toks.indexOf ['<'])).head? (toks.take (toks.indexOf ['<']))) := by
  have hi := indexOf_lt _ _ hlt
  have hload : load (toks.map some ++ [none]) (((toks.indexOf ['<'] : Nat) : Int) + 1) =
      Except.ok (some f) := by
    have hc : (((toks.indexOf ['<'] : Nat) : Int) + 1) = ((toks.indexOf ['<'] + 1 : Nat) : Int) := by
      push_cast; rfl
    rw [hc]
    apply load_natCast
    have hlen : toks.indexOf ['<'] + 1 < toks.length := by
      by_contra hcon
      rw [List.get?_eq_none.mpr (by omega)] at hf
      exact Option.noConfusion hf
    have hf2 : toks[toks.indexOf ['<'] + 1]? = some f := by simpa using hf
    rw [List.get?_eq_getElem?, List.getElem?_append_left (by simpa using hlen),
      List.getElem?_map, hf2]
    rfl
  have hstore : store (toks.map some ++ [none]) ((toks.indexOf ['<'] : Nat) : Int) none =
      Except.ok ((toks.take (toks.indexOf ['<'])).map some ++
        none :: ((toks.drop (toks.indexOf ['<'] + 1)).map some ++ [none])) := by
    rw [store_natCast _ _ _ (by simp; omega), set_marker _ _ hi]
  have hpos : ((toks.indexOf ['<'] : Nat) : Int) > -1 := by omega
  unfold redirectAndExec
  simp only [getInputRD_spec, getOutputRD_spec, if_pos hlt]
  unfold doRedirection
  simp only [if_pos hpos, hload, hstore, sysOpen, sysDup2]
  by_cases ho : k.openOk ⟨f, [OFlag.O_RDONLY], none⟩ = true
  · by_cases hd : k.dup2Ok ⟨f, [OFlag.O_RDONLY], none⟩ 0 = true
    · simp [ho, hd, -List.map_take, -List.map_drop, load_zero_tokens, argvOf_tokens]
    · simp [ho, hd]
  · simp [ho]

theorem redirectAndExec_output (k : Kernel) (sh : Shell) (toks : List CString)
    (si so : Option OpenFile) (d : Disposition) (g : CString)
    (hlt : ['<'] ∉ toks) (hgt : ['>'] ∈ toks)
    (hg : toks.get? (toks.indexOf ['>'] + 1) = some g) :
    redirectAndExec k sh ⟨toks.map some ++ [none], si, so, d⟩ =
      if k.openOk ⟨g, [OFlag.O_WRONLY, OFlag.O_CREAT, OFlag.O_TRUNC], some 0o664⟩ = false then
        ChildEnd.exit "open" EXIT_FAILURE
      else if k.dup2Ok ⟨g, [OFlag.O_WRONLY, OFlag.O_CREAT, OFlag.O_TRUNC], some 0o664⟩ 1 = false then
        ChildEnd.exit "dup2" EXIT_FAILURE
      else
        ChildEnd.execvp (toks.take (toks.indexOf ['>'])).head? (toks.take (toks.indexOf ['>']))
          si (some ⟨g, [OFlag.O_WRONLY, OFlag.O_CREAT, OFlag.O_TRUNC], some 0o664⟩) d
          (k.execOk (toks.take (toks.indexOf ['>'])).head? (toks.take (toks.indexOf ['>']))) := by
  have hi := indexOf_lt _ _ hgt
  have hload : load (toks.map some ++ [none]) (((toks.indexOf ['>'] : Nat) : Int) + 1) =
      Except.ok (some g) := by
    have hc : (((toks.indexOf ['>'] : Nat) : Int) + 1) = ((toks.indexOf ['>'] + 1 : Nat) : Int) := by
      push_cast; rfl
    rw [hc]
    apply load_natCast
    have hlen : toks.indexOf ['>'] + 1 < toks.length := by
      by_contra hcon
      rw [List.get?_eq_none.mpr (by omega)] at hg
      exact Option.noConfusion hg
    have hg2 : toks[toks.indexOf ['>'] + 1]? = some g := by simpa using hg
    rw [List.get?_eq_getElem?, List.getElem?_append_left (by simpa using hlen),
      List.getElem?_map, hg2]
    rfl
  have hstore : store (toks.map some ++ [none]) ((toks.indexOf ['>'] : Nat) : Int) none =
      Except.ok ((toks.take (toks.indexOf ['>'])).map some ++
        none :: ((toks.drop (toks.indexOf ['>'] + 1)).map some ++ [none])) := by
    rw [store_natCast _ _ _ (by simp; omega), set_marker _ _ hi]
  have hneg : ¬ ((-1 : Int) > -1) := by omega
  have hpos : ((toks.indexOf ['>'] : Nat) : Int) > -1 := by omega
  unfold redirectAndExec
  simp only [getInputRD_spec, getOutputRD_spec, if_pos hgt, if_neg hlt]
  unfold doRedirection
  simp only [if_neg hneg, if_pos hpos, hload, hstore, sysOpen, sysDup2]
  by_cases ho : k.openOk ⟨g, [OFlag.O_WRONLY, OFlag.O_CREAT, OFlag.O_TRUNC], some 0o664⟩ = true
  · by_cases hd : k.dup2Ok ⟨g, [OFlag.O_WRONLY, OFlag.O_CREAT, OFlag.O_TRUNC], some 0o664⟩ 1 = true
    · simp [ho, hd, -List.map_take, -List.map_drop, load_zero_tokens, argvOf_tokens]
    · simp [ho, hd]
  · simp [ho]

theorem redirectAndExec_background (k : Kernel) (sh : Shell) (toks : List CString)
    (si so : Option OpenFile) (d : Disposition)
    (hlt : ['<'] ∉ toks) (hgt : ['>'] ∉ toks) (hbg : sh.bgFlag = 1)
    (hcount : sh.argCount = (toks.length : Int)) (hne : toks ≠ []) :
    redirectAndExec k sh ⟨toks.map some ++ [none], si, so, d⟩ =
      if k.openOk devNull = false then ChildEnd.exit "open" EXIT_FAILURE
      else if k.dup2Ok devNull 0 = false then ChildEnd.exit "dup2" EXIT_FAILURE
      else if k.dup2Ok devNull 1 = false then ChildEnd.exit "dup2" EXIT_FAILURE
      else
        ChildEnd.execvp toks.dropLast.head? toks.dropLast (some devNull) (some devNull) d
          (k.execOk toks.dropLast.head? toks.dropLast) := by
  have hpos : 0 < toks.length := List.length_pos.mpr hne
  have hstore : store (toks.map some ++ [none]) (sh.argCount - 1) none =
      Except.ok (toks.dropLast.map some ++ none :: [none]) := by
    have hc : sh.argCount - 1 = ((toks.length - 1 : Nat) : Int) := by
      rw [hcount]; omega
    rw [hc, store_natCast _ _ _ (by simp; omega), set_last _ hne]
  have hneg : ¬ ((-1 : Int) > -1) := by omega
  have hlt0 : ((-1 : Int) < 0) := by omega
  unfold redirectAndExec
  simp only [getInputRD_spec, getOutputRD_spec, if_neg hgt, if_neg hlt]
  unfold doRedirection
  simp only [if_neg hneg, hbg, hlt0, sysOpen, sysDup2]
  by_cases ho : k.openOk devNull = true
  · by_cases hd0 : k.dup2Ok devNull 0 = true
    · by_cases hd1 : k.dup2Ok devNull 1 = true
      · simp [ho, hd0, hd1, hstore, -List.map_dropLast, load_zero_tokens, argvOf_tokens]
      · simp [ho, hd0, hd1]
    · simp [ho, hd0]
  · simp [ho]

theorem redirectAndExec_plain (k : Kernel) (sh : Shell) (toks : List CString)
    (si so : Option OpenFile) (d : Disposition)
    (hlt : ['<'] ∉ toks) (hgt : ['>'] ∉ toks) (hbg : sh.bgFlag ≠ 1) :
    redirectAndExec k sh ⟨toks.map some ++ [none], si, so, d⟩ =
      ChildEnd.execvp toks.head? toks si so d (k.execOk toks.head? toks) := by
  have hneg : ¬ ((-1 : Int) > -1) := by omega
  unfold redirectAndExec
  simp only [getInputRD_spec, getOutputRD_spec, if_neg hgt, if_neg hlt]
  unfold doRedirection
  simp [hneg, hbg, load_zero_tokens, argvOf_tokens]

/-! ## Dispatch lemmas -/

theorem runArgs_external (k : Kernel) (sh : Shell) (cmd : CString)
    (rest : List (Option CString))
    (hcomment : '#' ∉ cmd) (hcd : cmd ≠ ['c', 'd']) (hexit : cmd ≠ ['e', 'x', 'i', 't'])
    (hstatus : cmd ≠ ['s', 't', 'a', 't', 'u', 's']) :
    runArgs k sh (some cmd :: rest) = (runProcess k sh (some cmd :: rest)).withoutValue := by
  have h1 : ¬ ((strstr cmd ['#']).isSome = true) := fun h => hcomment ((strstr_isSome_iff _ _).mp h)
  have h2 : ¬ strcmp cmd ['c', 'd'] = 0 := fun h => hcd ((strcmp_eq_zero_iff _ _).mp h)
  have h3 : ¬ strcmp cmd ['e', 'x', 'i', 't'] = 0 := fun h => hexit ((strcmp_eq_zero_iff _ _).mp h)
  have h4 : ¬ strcmp cmd ['s', 't', 'a', 't', 'u', 's'] = 0 :=
    fun h => hstatus ((strcmp_eq_zero_iff _ _).mp h)
  unfold runArgs
  simp only [load, le_refl, if_true, Int.toNat_zero, List.get?_cons_zero, if_neg h1, if_neg h2,
    if_neg h3, if_neg h4]

theorem runLine_foreground (k : Kernel) (sh : Shell) (cmd : CString) (rest : List CString)
    (hchild : k.fork = 0)
    (htoks : maximalRuns (cString k.getline) = cmd :: rest)
    (h511 : (cmd :: rest).length ≤ 511)
    (hcomment : '#' ∉ cmd) (hcd : cmd ≠ ['c', 'd']) (hexit : cmd ≠ ['e', 'x', 'i', 't'])
    (hstatus : cmd ≠ ['s', 't', 'a', 't', 'u', 's'])
    (hamp : '&' ∉ cString k.getline) :
    runLine k sh = Outcome.child (redirectAndExec k
      { sh with bgFlag := 0, argCount := ((cmd :: rest).length : Int),
                sa_handler := Disposition.SIG_DFL }
      ⟨(cmd :: rest).map some ++ [none], none, none, Disposition.SIG_DFL⟩) := by
  have hs : ¬ ((strstr (cString k.getline) ['&']).isSome = true) :=
    fun h => hamp ((strstr_isSome_iff _ _).mp h)
  unfold runLine userLine
  simp only [if_neg hs]
  rw [parseLine_ok _ (by rw [htoks]; exact h511), htoks]
  simp only [List.map_cons, List.cons_append]
  rw [runArgs_external k _ cmd _ hcomment hcd hexit hstatus]
  simp [runProcess, hchild, Outcome.withoutValue, Outcome.after]

theorem runLine_background (k : Kernel) (sh : Shell) (cmd : CString) (rest : List CString)
    (hchild : k.fork = 0)
    (htoks : maximalRuns (cString k.getline) = cmd :: rest)
    (h511 : (cmd :: rest).length ≤ 511)
    (hcomment : '#' ∉ cmd) (hcd : cmd ≠ ['c', 'd']) (hexit : cmd ≠ ['e', 'x', 'i', 't'])
    (hstatus : cmd ≠ ['s', 't', 'a', 't', 'u', 's'])
    (hamp : '&' ∈ cString k.getline) :
    runLine k sh = Outcome.child (redirectAndExec k
      { sh with bgFlag := 1, argCount := ((cmd :: rest).length : Int) }
      ⟨(cmd :: rest).map some ++ [none], none, none, sh.sa_handler⟩) := by
  have hs : (strstr (cString k.getline) ['&']).isSome = true := (strstr_isSome_iff _ _).mpr hamp
  unfold runLine userLine
  simp only [if_pos hs]
  rw [parseLine_ok _ (by rw [htoks]; exact h511), htoks]
  simp only [List.map_cons, List.cons_append]
  rw [runArgs_external k _ cmd _ hcomment hcd hexit hstatus]
  simp [runProcess, hchild, Outcome.withoutValue, Outcome.after]

theorem mem_of_mem_splitOnP (p : Char → Bool) (l : List Char) :
    ∀ t ∈ l.splitOnP p, ∀ c ∈ t, c ∈ l := by
  induction l with
  | nil => intro t ht c hc; simp at ht; subst ht; simp at hc
  | cons x xs ih =>
    intro t ht c hc
    rw [List.splitOnP_cons] at ht
    by_cases hx : p x = true
    · rw [if_pos hx] at ht
      rcases List.mem_cons.mp ht with h1 | h1
      · subst h1; simp at hc
      · exact List.mem_cons_of_mem _ (ih t h1 c hc)
    · rw [if_neg hx] at ht
      cases hsp : xs.splitOnP p with
      | nil => exact absurd hsp (List.splitOnP_ne_nil p xs)
      | cons h tl =>
        rw [hsp] at ht ih
        simp only [List.modifyHead] at ht
        rcases List.mem_cons.mp ht with h1 | h1
        · subst h1
          rcases List.mem_cons.mp hc with h2 | h2
          · subst h2; exact List.mem_cons_self _ _
          · exact List.mem_cons_of_mem _ (ih h (List.mem_cons_self _ _) c h2)
        · exact List.mem_cons_of_mem _ (ih t (List.mem_cons_of_mem _ h1) c hc)

theorem mem_line_of_mem_token (line : CString) (t : CString) (ht : t ∈ maximalRuns line)
    (c : Char) (hc : c ∈ t) : c ∈ line := by
  unfold maximalRuns at ht
  exact mem_of_mem_splitOnP _ line t (List.mem_filter.mp ht).1 c hc

/-! ## Token lemmas -/

theorem not_delim_of_mem_splitOnP (p : Char → Bool) (l : List Char) :
    ∀ t ∈ l.splitOnP p, ∀ c ∈ t, p c = false := by
  induction l with
  | nil => intro t ht c hc; simp at ht; subst ht; simp at hc
  | cons x xs ih =>
    intro t ht c hc
    rw [List.splitOnP_cons] at ht
    by_cases hx : p x = true
    · rw [if_pos hx] at ht
      rcases List.mem_cons.mp ht with h1 | h1
      · subst h1; simp at hc
      · exact ih t h1 c hc
    · rw [if_neg hx] at ht
      cases hsp : xs.splitOnP p with
      | nil => exact absurd hsp (List.splitOnP_ne_nil p xs)
      | cons h tl =>
        rw [hsp] at ht ih
        simp only [List.modifyHead] at ht
        rcases List.mem_cons.mp ht with h1 | h1
        · subst h1
          rcases List.mem_cons.mp hc with h2 | h2
          · subst h2; simpa using hx
          · exact ih h (List.mem_cons_self _ _) c h2
        · exact ih t (List.mem_cons_of_mem _ h1) c hc

theorem token_shape (line t : CString) (ht : t ∈ maximalRuns line) :
    t ≠ [] ∧ ' ' ∉ t ∧ '\n' ∉ t := by
  unfold maximalRuns at ht
  obtain ⟨hmem, hne⟩ := List.mem_filter.mp ht
  refine ⟨?_, ?_, ?_⟩
  · intro h; subst h; simp at hne
  · intro h
    have := not_delim_of_mem_splitOnP _ line t hmem ' ' h
    simp at this
  · intro h
    have := not_delim_of_mem_splitOnP _ line t hmem '\n' h
    simp at this

theorem maximalRuns_blank (line : CString) (h : ∀ c ∈ line, c = ' ' ∨ c = '\n') :
    maximalRuns line = [] := by
  induction line with
  | nil => exact maximalRuns_nil
  | cons c cs ih =>
    have hc : c ∈ [' ', '\n'] := by
      rcases h c (List.mem_cons_self _ _) with h1 | h1 <;> simp [h1]
    rw [maximalRuns_cons_delim c cs hc]
    exact ih (fun c hc => h c (List.mem_cons_of_mem _ hc))

theorem get?_indexOf_add_one (m : CString) (toks : List CString)
    (h : toks.indexOf m + 1 < toks.length) :
    ∃ f, toks.get? (toks.indexOf m + 1) = some f :=
  ⟨toks.get ⟨toks.indexOf m + 1, h⟩, List.get?_eq_get h⟩

theorem get?_indexOf_self (m : CString) (toks : List CString) (h : m ∈ toks) :
    toks.get? (toks.indexOf m) = some m := by
  induction toks with
  | nil => simp at h
  | cons t ts ih =>
    by_cases ht : t = m
    · subst ht; rw [indexOf_head]; rfl
    · rw [indexOf_tail m t ts ht]
      have : m ∈ ts := by
        rcases List.mem_cons.mp h with h1 | h1
        · exact absurd h1.symm ht
        · exact h1
      simpa using ih this

/-! ## Background job lemmas -/

theorem checkBGLoop_quiet (k : Kernel) (hk : ∀ pid, k.waitpidNoHang pid = none) (sh : Shell)
    (out : List Event) : ∀ (n : Nat) (i : Nat), i + n ≤ sh.bgArray.length →
    checkBGLoop k n (i : Int) sh out = Except.ok (sh, out) := by
  intro n
  induction n with
  | zero => intro i _; rfl
  | succ n ih =>
    intro i hi
    have hlt : i < sh.bgArray.length := by omega
    have hload : load sh.bgArray (i : Int) = Except.ok (sh.bgArray.get ⟨i, hlt⟩) :=
      load_natCast _ _ _ (List.get?_eq_get hlt)
    have hnext : ((i : Int) + 1) = ((i + 1 : Nat) : Int) := by push_cast; rfl
    simp only [checkBGLoop, hload, hk, hnext]
    exact ih (i + 1) (by omega)

theorem checkBG_quiet (k : Kernel) (hk : ∀ pid, k.waitpidNoHang pid = none) (sh : Shell)
    (n : Nat) (hn : sh.bgCount = (n : Int)) (hlen : n ≤ sh.bgArray.length) :
    checkBG k sh = Except.ok (sh, []) := by
  unfold checkBG
  by_cases h1 : sh.bgCount < 1
  · rw [if_pos h1]
  · rw [if_neg h1, hn, Int.toNat_ofNat]
    exact checkBGLoop_quiet k hk sh [] n 0 (by omega)

theorem sleep_cycle (sh : Shell) (n : Nat) (hn : sh.bgCount = (n : Int))
    (hlen : sh.bgArray.length = BG_SLOTS) (hlt : n < BG_SLOTS) :
    shellCycle (Kernel.answering "sleep 1 &\n" 7) sh =
      Outcome.returned
        { sh with sa_handler := Disposition.SIG_IGN, bgFlag := 1, argCount := 3,
                  bgArray := sh.bgArray.set n 7, bgCount := (n : Int) + 1 }
        [Event.printf ": " [], Event.fork 7,
          Event.printf "Background process, pid: %d created.\n" [7]]
        RetVal.indeterminate := by
  have hq := checkBG_quiet (Kernel.answering "sleep 1 &\n" 7) (fun _ => rfl)
    { sh with sa_handler := Disposition.SIG_IGN } n hn (by simp only [hlen]; omega)
  have hamp : (strstr (cString (Kernel.answering "sleep 1 &\n" 7).getline) ['&']).isSome = true := by
    decide
  have hparse : parseLine (cString (Kernel.answering "sleep 1 &\n" 7).getline) =
      Except.ok ⟨[some ['s', 'l', 'e', 'e', 'p'], some ['1'], some ['&'], none], 3⟩ := by
    rfl
  have hstore : store sh.bgArray (n : Int) (7 : Int) = Except.ok (sh.bgArray.set n 7) :=
    store_natCast _ _ _ (by rw [hlen]; exact hlt)
  unfold shellCycle
  rw [hq]
  simp only [runLine, userLine, if_pos hamp, hparse]
  rw [runArgs_external _ _ ['s', 'l', 'e', 'e', 'p'] _ (by decide) (by decide) (by decide)
    (by decide)]
  simp [runProcess, Kernel.answering, hn, hstore, Outcome.withoutValue, Outcome.after]

theorem sleep_cycle_full (sh : Shell) (hn : sh.bgCount = (BG_SLOTS : Int))
    (hlen : sh.bgArray.length = BG_SLOTS) :
    shellCycle (Kernel.answering "sleep 1 &\n" 7) sh = Outcome.fault Fault.outOfBounds := by
  have hq := checkBG_quiet (Kernel.answering "sleep 1 &\n" 7) (fun _ => rfl)
    { sh with sa_handler := Disposition.SIG_IGN } BG_SLOTS hn (by simp only [hlen]; omega)
  have hamp : (strstr (cString (Kernel.answering "sleep 1 &\n" 7).getline) ['&']).isSome = true := by
    decide
  have hparse : parseLine (cString (Kernel.answering "sleep 1 &\n" 7).getline) =
      Except.ok ⟨[some ['s', 'l', 'e', 'e', 'p'], some ['1'], some ['&'], none], 3⟩ := by
    rfl
  have hstore : store sh.bgArray (BG_SLOTS : Int) (7 : Int) = Except.error Fault.outOfBounds := by
    simp [store, hlen]
  unfold shellCycle
  rw [hq]
  simp only [runLine, userLine, if_pos hamp, hparse]
  rw [runArgs_external _ _ ['s', 'l', 'e', 'e', 'p'] _ (by decide) (by decide) (by decide)
    (by decide)]
  simp [runProcess, Kernel.answering, hn, hstore, Outcome.withoutValue, Outcome.after]

theorem doShell_continue (k : Kernel) (ks : List Kernel) (sh sh1 : Shell)
    (out out1 : List Event)
    (h : shellCycle k sh = Outcome.returned sh1 out1 RetVal.indeterminate) :
    doShell 1 (k :: ks) sh out = doShell 1 ks sh1 (out ++ out1) := by
  simp [doShell, h]

theorem doShell_fault (k : Kernel) (ks : List Kernel) (sh : Shell) (out : List Event)
    (f : Fault) (h : shellCycle k sh = Outcome.fault f) :
    doShell 1 (k :: ks) sh out = Run.stopped (Outcome.fault f) := by
  simp [doShell, h, Outcome.after]

theorem sleep_cycles_count (m : Nat) : ∀ (sh : Shell) (out : List Event) (n : Nat),
    sh.bgCount = (n : Int) → sh.bgArray.length = BG_SLOTS → n + m ≤ BG_SLOTS →
    ∃ sh1 out1, doShell 1 (List.replicate m (Kernel.answering "sleep 1 &\n" 7)) sh out =
        Run.running sh1 out1 ∧ sh1.bgCount = ((n + m : Nat) : Int) ∧
        sh1.bgArray.length = BG_SLOTS := by
  induction m with
  | zero => intro sh out n hn hlen _; exact ⟨sh, out, rfl, by simpa using hn, hlen⟩
  | succ m ih =>
    intro sh out n hn hlen hle
    rw [List.replicate_succ, doShell_continue _ _ _ _ _ _ (sleep_cycle sh n hn hlen (by omega))]
    obtain ⟨sh1, out1, h1, h2, h3⟩ := ih
      { sh with sa_handler := Disposition.SIG_IGN, bgFlag := 1, argCount := 3,
                bgArray := sh.bgArray.set n 7, bgCount := (n : Int) + 1 }
      (out ++ [Event.printf ": " [], Event.fork 7,
          Event.printf "Background process, pid: %d created.\n" [7]])
      (n + 1) (by push_cast; rfl) (by simp [hlen]) (by omega)
    refine ⟨sh1, out1, h1, ?_, h3⟩
    rw [h2]; congr 1; omega

theorem sleep_cycles_overflow (m : Nat) : ∀ (sh : Shell) (out : List Event) (n : Nat),
    sh.bgCount = (n : Int) → sh.bgArray.length = BG_SLOTS → n + m = BG_SLOTS →
    doShell 1 (List.replicate (m + 1) (Kernel.answering "sleep 1 &\n" 7)) sh out =
      Run.stopped (Outcome.fault Fault.outOfBounds) := by
  induction m with
  | zero =>
    intro sh out n hn hlen hle
    have hn2 : sh.bgCount = (BG_SLOTS : Int) := by rw [hn]; congr 1
    exact doShell_fault _ _ _ _ _ (sleep_cycle_full sh hn2 hlen)
  | succ m ih =>
    intro sh out n hn hlen hle
    rw [List.replicate_succ, doShell_continue _ _ _ _ _ _ (sleep_cycle sh n hn hlen (by omega))]
    exact ih
      { sh with sa_handler := Disposition.SIG_IGN, bgFlag := 1, argCount := 3,
                bgArray := sh.bgArray.set n 7, bgCount := (n : Int) + 1 }
      (out ++ [Event.printf ": " [], Event.fork 7,
          Event.printf "Background process, pid: %d created.\n" [7]])
      (n + 1) (by push_cast; rfl) (by simp [hlen]) (by omega)

/-! ## Tokenization lemmas -/

theorem Tokenized.cons_delim (d : Char) (hd : d = ' ' ∨ d = '\n') (line : CString)
    (toks : List CString) (h : Tokenized line toks) : Tokenized (d :: line) toks := by
  cases h with
  | blank gap hgap =>
    exact Tokenized.blank (d :: line) (fun c hc => by
      rcases List.mem_cons.mp hc with h1 | h1
      · rw [h1]; exact hd
      · exact hgap c h1)
  | token gap t rest toks hgap hne ht hrest h =>
    have := Tokenized.token (d :: gap) t rest toks (fun c hc => by
      rcases List.mem_cons.mp hc with h1 | h1
      · rw [h1]; exact hd
      · exact hgap c h1) hne ht hrest h
    simpa using this

theorem tokenized_maximalRuns_aux (n : Nat) : ∀ line : CString, line.length ≤ n →
    Tokenized line (maximalRuns line) := by
  induction n with
  | zero =>
    intro line hl
    have : line = [] := List.length_eq_zero.mp (Nat.le_zero.mp hl)
    subst this
    rw [maximalRuns_nil]
    exact Tokenized.blank [] (fun c hc => by simp at hc)
  | succ n ih =>
    intro line hl
    cases line with
    | nil =>
      rw [maximalRuns_nil]
      exact Tokenized.blank [] (fun c hc => by simp at hc)
    | cons c cs =>
      have hcs : cs.length ≤ n := by simp only [List.length_cons] at hl; omega
      by_cases hc : c ∈ [' ', '\n']
      · rw [maximalRuns_cons_delim c cs hc]
        exact Tokenized.cons_delim c (by simpa using hc) cs _ (ih cs hcs)
      · rw [maximalRuns_cons_token c cs hc]
        have hsplit := List.takeWhile_append_dropWhile (fun c => decide (c ∉ [' ', '\n'])) (c :: cs)
        have hcc : decide (c ∉ [' ', '\n']) = true := by simpa using hc
        have htne : (c :: cs).takeWhile (fun c => decide (c ∉ [' ', '\n'])) ≠ [] := by
          have he : (c :: cs).takeWhile (fun c => decide (c ∉ [' ', '\n'])) =
              c :: cs.takeWhile (fun c => decide (c ∉ [' ', '\n'])) := by
            simp only [List.takeWhile, hcc]
          rw [he]
          exact List.cons_ne_nil _ _
        have ht : ∀ x ∈ (c :: cs).takeWhile (fun c => decide (c ∉ [' ', '\n'])),
            x ≠ ' ' ∧ x ≠ '\n' := by
          intro x hx
          have := List.mem_takeWhile_imp hx
          simpa using this
        have hdrop : (c :: cs).dropWhile (fun c => decide (c ∉ [' ', '\n'])) =
            cs.dropWhile (fun c => decide (c ∉ [' ', '\n'])) := by
          simp only [List.dropWhile, hcc]
        have hrest : Tokenized ((c :: cs).dropWhile (fun c => decide (c ∉ [' ', '\n'])))
            (maximalRuns ((c :: cs).dropWhile (fun c => decide (c ∉ [' ', '\n']))).tail) ∧
            ∀ d ∈ ((c :: cs).dropWhile (fun c => decide (c ∉ [' ', '\n']))).head?,
              d = ' ' ∨ d = '\n' := by
          rw [hdrop]
          cases hdw : cs.dropWhile (fun c => decide (c ∉ [' ', '\n'])) with
          | nil =>
            refine ⟨?_, fun d hd => by simp at hd⟩
            simp only [List.tail_nil, maximalRuns_nil]
            exact Tokenized.blank [] (fun c hc => by simp at hc)
          | cons d r =>
            have hd : d = ' ' ∨ d = '\n' := by
              have h1 := List.head_dropWhile_not (fun c => decide (c ∉ [' ', '\n'])) cs
                (by rw [hdw]; simp)
              simp only [hdw, List.head_cons] at h1
              by_cases hsp : d = ' '
              · exact Or.inl hsp
              · right
                by_contra hnl
                simp [hsp, hnl] at h1
            have hr : r.length ≤ n := by
              have := (List.dropWhile_suffix (fun c => decide (c ∉ [' ', '\n'])) (l := cs)).length_le
              rw [hdw] at this
              simp only [List.length_cons] at this
              omega
            refine ⟨?_, fun x hx => ?_⟩
            · simp only [List.tail_cons]
              exact Tokenized.cons_delim d hd r _ (ih r hr)
            · simp only [List.head?_cons, Option.mem_def, Option.some.injEq] at hx
              rw [← hx]; exact hd
        have := Tokenized.token [] _ _ _ (fun c hc => by simp at hc) htne ht hrest.2 hrest.1
        rw [List.nil_append, hsplit] at this
        exact this

theorem tokenized_maximalRuns (line : CString) : Tokenized line (maximalRuns line) :=
  tokenized_maximalRuns_aux line.length line (le_refl _)

theorem gap_unique (p : Char → Bool) (gap t rest : CString) (hgap : ∀ c ∈ gap, p c = true)
    (hhead : ∀ c ∈ (t ++ rest).head?, p c = false) :
    (gap ++ t ++ rest).takeWhile p = gap ∧ (gap ++ t ++ rest).dropWhile p = t ++ rest := by
  have h1 : (t ++ rest).takeWhile p = [] ∧ (t ++ rest).dropWhile p = t ++ rest := by
    cases h : t ++ rest with
    | nil => simp
    | cons c cs =>
      have hc : p c = false := hhead c (by rw [h]; rfl)
      simp [List.takeWhile, List.dropWhile, hc]
  rw [List.append_assoc, List.takeWhile_append_of_pos hgap, List.dropWhile_append_of_pos hgap,
    h1.1, h1.2]
  simp

theorem Tokenized.unique (line : CString) (a b : List CString)
    (ha : Tokenized line a) (hb : Tokenized line b) : a = b := by
  induction ha generalizing b with
  | blank gap hgap =>
    cases hb with
    | blank _ _ => rfl
    | token gap2 t2 rest2 toks2 hgap2 hne2 ht2 hrest2 h2 =>
      exfalso
      cases t2 with
      | nil => exact hne2 rfl
      | cons c cs =>
        have hmem : c ∈ gap2 ++ c :: cs ++ rest2 := by simp
        have h1 := hgap c hmem
        have h2 := ht2 c (List.mem_cons_self _ _)
        rcases h1 with h1 | h1
        · exact h2.1 h1
        · exact h2.2 h1
  | token gap t rest toks hgap hne ht hrest h ih =>
    generalize hline : gap ++ t ++ rest = line at hb
    cases hb with
    | blank _ hgap2 =>
      exfalso
      cases t with
      | nil => exact hne rfl
      | cons c cs =>
        have hmem : c ∈ line := by rw [← hline]; simp
        have h1 := hgap2 c hmem
        have h2 := ht c (List.mem_cons_self _ _)
        rcases h1 with h1 | h1
        · exact h2.1 h1
        · exact h2.2 h1
    | token gap2 t2 rest2 toks2 hgap2 hne2 ht2 hrest2 h2 =>
      have hd : ∀ (g : CString), (∀ c ∈ g, c = ' ' ∨ c = '\n') →
          ∀ c ∈ g, (c == ' ' || c == '\n') = true := by
        intro g hg c hc
        rcases hg c hc with h1 | h1 <;> simp [h1]
      have hh : ∀ (u v : CString), u ≠ [] → (∀ c ∈ u, c ≠ ' ' ∧ c ≠ '\n') →
          ∀ c ∈ (u ++ v).head?, (c == ' ' || c == '\n') = false := by
        intro u v hu hu2 c hc
        cases u with
        | nil => exact absurd rfl hu
        | cons x xs =>
          simp only [List.cons_append, List.head?_cons, Option.mem_def, Option.some.injEq] at hc
          have := hu2 x (List.mem_cons_self _ _)
          rw [← hc]
          simp [this.1, this.2]
      have e1 := gap_unique _ gap t rest (hd gap hgap) (hh t rest hne ht)
      have e2 := gap_unique _ gap2 t2 rest2 (hd gap2 hgap2) (hh t2 rest2 hne2 ht2)
      rw [hline] at e1
      have hts : t ++ rest = t2 ++ rest2 := e1.2.symm.trans e2.2
      have hn : ∀ (u : CString), (∀ c ∈ u, c ≠ ' ' ∧ c ≠ '\n') →
          ∀ c ∈ u, (!(c == ' ' || c == '\n')) = true := by
        intro u hu c hc
        have := hu c hc
        simp [this.1, this.2]
      have hr : ∀ (v : CString), (∀ d ∈ v.head?, d = ' ' ∨ d = '\n') →
          ∀ c ∈ ([] ++ v).head?, (!(c == ' ' || c == '\n')) = false := by
        intro v hv c hc
        rcases hv c (by simpa using hc) with h1 | h1 <;> simp [h1]
      have f1 := gap_unique (fun c => !(c == ' ' || c == '\n')) t [] rest (hn t ht) (hr rest hrest)
      have f2 := gap_unique (fun c => !(c == ' ' || c == '\n')) t2 [] rest2 (hn t2 ht2)
        (hr rest2 hrest2)
      simp only [List.append_nil, List.nil_append] at f1 f2
      rw [hts] at f1
      have htt : t = t2 := f1.1.symm.trans f2.1
      have hrr : rest = rest2 := f1.2.symm.trans f2.2
      subst htt hrr
      rw [ih toks2 h2]

/-! ## Tokenizer (C1) -/

/-- C1: for every input line that has at most 511 tokens, parseLine stores exactly the
maximal runs of characters other than space and newline, in their order of appearance,
followed by a NULL slot, and sets argCount to the number of tokens; every token is
non-empty and free of delimiters, and a line made only of spaces and newlines gives the
empty vector.  The maximal runs are the one token sequence that reads the line as gaps of
delimiters around non-empty delimiter-free tokens, each followed by a delimiter or the end
of the line. -/
theorem parseLine_returns_maximal_runs (line : CString)
    (h : (maximalRuns line).length ≤ 511) :
    parseLine line =
        Except.ok ⟨(maximalRuns line).map some ++ [none], ((maximalRuns line).length : Int)⟩
      ∧ (∀ toks, Tokenized line toks ↔ toks = maximalRuns line)
      ∧ (∀ t ∈ maximalRuns line, t ≠ [] ∧ ' ' ∉ t ∧ '\n' ∉ t)
      ∧ ((∀ c ∈ line, c = ' ' ∨ c = '\n') → parseLine line = Except.ok ⟨[none], 0⟩) := by
  refine ⟨parseLine_ok line h, fun toks => ⟨fun ht => ?_, fun ht => ?_⟩,
    fun t ht => token_shape line t ht, fun hb => ?_⟩
  · exact Tokenized.unique line toks _ ht (tokenized_maximalRuns line)
  · rw [ht]; exact tokenized_maximalRuns line
  · have h0 := maximalRuns_blank line hb
    rw [parseLine_ok line h, h0]
    rfl

/-- Instance of the tokenizer theorem: the line `  ls  -l` followed by a newline. -/
theorem parseLine_returns_maximal_runs_witness :
    (maximalRuns "  ls  -l\n".toList).length ≤ 511 ∧
      parseLine "  ls  -l\n".toList =
        Except.ok ⟨[some ['l', 's'], some ['-', 'l'], none], 2⟩ :=
  ⟨by decide,
    (parseLine_returns_maximal_runs "  ls  -l\n".toList (by decide)).1.trans (by rfl)⟩

/-! ## Redirection (C3, C4) -/

/-- C3: for every argument vector that holds a `<` token followed by a filename token and
no `>` token, and whose file opens, the child either exits on a failing dup2 or calls
execvp with exactly the tokens before the first `<`: the vector handed to execvp holds
neither the `<` marker nor the token that follows it, and standard input is that file
opened read-only. -/
theorem input_redirection_strips_file (k : Kernel) (sh : Shell) (toks : List CString)
    (si so : Option OpenFile) (d : Disposition) (f : CString)
    (hlt : ['<'] ∈ toks) (hf : toks.get? (toks.indexOf ['<'] + 1) = some f)
    (_hgt : ['>'] ∉ toks)
    (hopen : k.openOk ⟨f, [OFlag.O_RDONLY], none⟩ = true) :
    redirectAndExec k sh ⟨toks.map some ++ [none], si, so, d⟩ =
        (if k.dup2Ok ⟨f, [OFlag.O_RDONLY], none⟩ 0 = false then
          ChildEnd.exit "dup2" EXIT_FAILURE
        else
          ChildEnd.execvp (toks.take (toks.indexOf ['<'])).head?
            (toks.take (toks.indexOf ['<']))
            (some ⟨f, [OFlag.O_RDONLY], none⟩) so d
            (k.execOk (toks.take (toks.indexOf ['<'])).head? (toks.take (toks.indexOf ['<']))))
      ∧ ['<'] ∉ toks.take (toks.indexOf ['<'])
      ∧ (toks.take (toks.indexOf ['<'])).length = toks.indexOf ['<'] := by
  refine ⟨?_, not_mem_take_indexOf _ _, ?_⟩
  · rw [redirectAndExec_input k sh toks si so d f hlt hf]
    simp [hopen]
  · have := indexOf_lt _ _ hlt
    simp only [List.length_take]
    omega

/-- Instance of the input-redirection theorem: the vector `cat < in`. -/
theorem input_redirection_strips_file_witness :
    redirectAndExec (Kernel.answering "cat < in\n" 0) Shell.initial
        ⟨[some ['c', 'a', 't'], some ['<'], some ['i', 'n'], none], none, none,
          Disposition.SIG_DFL⟩ =
      ChildEnd.execvp (some ['c', 'a', 't']) [['c', 'a', 't']]
        (some ⟨['i', 'n'], [OFlag.O_RDONLY], none⟩) none Disposition.SIG_DFL true :=
  (input_redirection_strips_file (Kernel.answering "cat < in\n" 0) Shell.initial
    [['c', 'a', 't'], ['<'], ['i', 'n']] none none Disposition.SIG_DFL ['i', 'n']
    (by decide) (by decide) (by decide) (by decide)).1.trans (by decide)

/-- C4: for every argument vector in which each redirection marker is followed by a
token, at most one redirection is applied, input preferred.  With a `<` token, the token
after the first `<` is opened read-only and bound to standard input while standard output
stays as it was, also when a `>` token is present.  With no `<` token and a `>` token, the
token after the first `>` is opened write-only with create and truncate and mode 0664 and
bound to standard output while standard input stays as it was.  A failing open or dup2 ends
the child with EXIT_FAILURE before execvp. -/
theorem one_redirection_input_preferred (k : Kernel) (sh : Shell) (toks : List CString)
    (si so : Option OpenFile) (d : Disposition)
    (hfollow : ∀ i, i < toks.length →
      (toks.get? i = some ['<'] ∨ toks.get? i = some ['>']) → i + 1 < toks.length) :
    (['<'] ∈ toks → ∃ f, toks.get? (toks.indexOf ['<'] + 1) = some f ∧
      redirectAndExec k sh ⟨toks.map some ++ [none], si, so, d⟩ =
        if k.openOk ⟨f, [OFlag.O_RDONLY], none⟩ = false then
          ChildEnd.exit "open" EXIT_FAILURE
        else if k.dup2Ok ⟨f, [OFlag.O_RDONLY], none⟩ 0 = false then
          ChildEnd.exit "dup2" EXIT_FAILURE
        else
          ChildEnd.execvp (toks.take (toks.indexOf ['<'])).head?
            (toks.take (toks.indexOf ['<']))
            (some ⟨f, [OFlag.O_RDONLY], none⟩) so d
            (k.execOk (toks.take (toks.indexOf ['<'])).head? (toks.take (toks.indexOf ['<']))))
    ∧ (['<'] ∉ toks → ['>'] ∈ toks → ∃ g, toks.get? (toks.indexOf ['>'] + 1) = some g ∧
      redirectAndExec k sh ⟨toks.map some ++ [none], si, so, d⟩ =
        if k.openOk ⟨g, [OFlag.O_WRONLY, OFlag.O_CREAT, OFlag.O_TRUNC], some 0o664⟩ = false then
          ChildEnd.exit "open" EXIT_FAILURE
        else if k.dup2Ok ⟨g, [OFlag.O_WRONLY, OFlag.O_CREAT, OFlag.O_TRUNC], some 0o664⟩ 1
            = false then
          ChildEnd.exit "dup2" EXIT_FAILURE
        else
          ChildEnd.execvp (toks.take (toks.indexOf ['>'])).head?
            (toks.take (toks.indexOf ['>']))
            si (some ⟨g, [OFlag.O_WRONLY, OFlag.O_CREAT, OFlag.O_TRUNC], some 0o664⟩) d
            (k.execOk (toks.take (toks.indexOf ['>'])).head?
              (toks.take (toks.indexOf ['>'])))) := by
  constructor
  · intro hlt
    obtain ⟨f, hf⟩ := get?_indexOf_add_one ['<'] toks
      (hfollow _ (indexOf_lt _ _ hlt) (Or.inl (get?_indexOf_self _ _ hlt)))
    exact ⟨f, hf, redirectAndExec_input k sh toks si so d f hlt hf⟩
  · intro hlt hgt
    obtain ⟨g, hg⟩ := get?_indexOf_add_one ['>'] toks
      (hfollow _ (indexOf_lt _ _ hgt) (Or.inr (get?_indexOf_self _ _ hgt)))
    exact ⟨g, hg, redirectAndExec_output k sh toks si so d g hlt hgt hg⟩

/-- Instance of the precedence theorem: on the vector `sort < in > out` only the input
redirection is applied. -/
theorem one_redirection_input_preferred_witness :
    ∃ f, [['s', 'o', 'r', 't'], ['<'], ['i', 'n'], ['>'], ['o', 'u', 't']].get? 2 = some f ∧
      redirectAndExec (Kernel.answering "sort < in > out\n" 0) Shell.initial
          ⟨[some ['s', 'o', 'r', 't'], some ['<'], some ['i', 'n'], some ['>'],
            some ['o', 'u', 't'], none], none, none, Disposition.SIG_DFL⟩ =
        ChildEnd.execvp (some ['s', 'o', 'r', 't']) [['s', 'o', 'r', 't']]
          (some ⟨f, [OFlag.O_RDONLY], none⟩) none Disposition.SIG_DFL true := by
  obtain ⟨f, hf, h⟩ := (one_redirection_input_preferred (Kernel.answering "sort < in > out\n" 0)
    Shell.initial [['s', 'o', 'r', 't'], ['<'], ['i', 'n'], ['>'], ['o', 'u', 't']] none none
    Disposition.SIG_DFL (by decide)).1 (by decide)
  refine ⟨f, hf, h.trans ?_⟩
  simp [Kernel.answering]
  decide

/-! ## Plain commands (C2) -/

/-- C2, as stated, fails on the line `echo a&b`: it has no `<` or `>` token, its last
token is not `&`, its first token is no built-in or comment, yet userLine sets the
background flag for the `&` inside `a&b` and the child hands execvp the vector `echo`
alone instead of the two tokens of the line. -/
theorem plain_command_counterexample :
    maximalRuns (cString (Kernel.answering "echo a&b\n" 0).getline) =
        [['e', 'c', 'h', 'o'], ['a', '&', 'b']]
      ∧ (runLine (Kernel.answering "echo a&b\n" 0) Shell.initial).execArgv =
        some [['e', 'c', 'h', 'o']] := by
  decide

/-- C2, amended: for every command line of at most 511 tokens that has no `<` or `>`
token and no `&` character anywhere, and whose first token holds no `#` and is not `cd`,
`exit` or `status`, the forked child calls execvp with exactly the tokens of the line, in
order, and with standard input and output as inherited. -/
theorem plain_command_argv_is_tokens (k : Kernel) (sh : Shell) (cmd : CString)
    (rest : List CString)
    (hchild : k.fork = 0)
    (htoks : maximalRuns (cString k.getline) = cmd :: rest)
    (h511 : (cmd :: rest).length ≤ 511)
    (hcomment : '#' ∉ cmd) (hcd : cmd ≠ ['c', 'd']) (hexit : cmd ≠ ['e', 'x', 'i', 't'])
    (hstatus : cmd ≠ ['s', 't', 'a', 't', 'u', 's'])
    (hlt : ['<'] ∉ cmd :: rest) (hgt : ['>'] ∉ cmd :: rest)
    (hamp : '&' ∉ cString k.getline) :
    runLine k sh =
      Outcome.child (ChildEnd.execvp (some cmd) (cmd :: rest) none none Disposition.SIG_DFL
        (k.execOk (some cmd) (cmd :: rest))) := by
  rw [runLine_foreground k sh cmd rest hchild htoks h511 hcomment hcd hexit hstatus hamp,
    redirectAndExec_plain k _ (cmd :: rest) none none _ hlt hgt (by simp)]
  rfl

/-- Instance of the plain-command theorem: the line `ls -l`. -/
theorem plain_command_argv_is_tokens_witness :
    runLine (Kernel.answering "ls -l\n" 0) Shell.initial =
      Outcome.child (ChildEnd.execvp (some ['l', 's']) [['l', 's'], ['-', 'l']] none none
        Disposition.SIG_DFL true) :=
  plain_command_argv_is_tokens (Kernel.answering "ls -l\n" 0) Shell.initial ['l', 's']
    [['-', 'l']] (by decide) (by decide) (by decide) (by decide) (by decide) (by decide)
    (by decide) (by decide) (by decide) (by decide)

/-! ## Background default redirection (C5) -/

/-- C5, as stated, fails in two ways.  On the line `echo & hi` userLine sets the background
flag, the vector has no `<` or `>` token, and the child hands execvp the vector `echo &`:
the `&` token is kept and the token `hi` is dropped.  On the line `sleep 5 &` the vector
handed to execvp is `sleep 5` as claimed, but standard input is bound to the descriptor
that was opened on `/dev/null` for writing only, and a read on it fails with EBADF instead
of yielding end of input. -/
theorem background_strip_counterexample :
    (userLine (Kernel.answering "echo & hi\n" 0) Shell.initial).1.bgFlag = 1
      ∧ maximalRuns (cString (Kernel.answering "echo & hi\n" 0).getline) =
        [['e', 'c', 'h', 'o'], ['&'], ['h', 'i']]
      ∧ (runLine (Kernel.answering "echo & hi\n" 0) Shell.initial).execArgv =
        some [['e', 'c', 'h', 'o'], ['&']]
      ∧ runLine (Kernel.answering "sleep 5 &\n" 0) Shell.initial =
        Outcome.child (ChildEnd.execvp (some ['s', 'l', 'e', 'e', 'p'])
          [['s', 'l', 'e', 'e', 'p'], ['5']] (some devNull) (some devNull)
          Disposition.SIG_DFL true)
      ∧ sysRead devNull = ReadResult.EBADF := by
  decide

/-- C5, amended: for every command with the background flag set, neither a `<` nor a `>`
token, and `&` as its last token (argCount being the number of tokens), the child binds
both standard input and standard output to one open of `/dev/null`, which discards what is
written to it, and calls execvp with the tokens that precede the trailing `&`, every one
of them kept; a failing open or dup2 ends the child with EXIT_FAILURE before execvp.  What
a read on standard input yields is not part of the statement. -/
theorem background_null_sink_and_strip (k : Kernel) (sh : Shell) (front : List CString)
    (si so : Option OpenFile) (d : Disposition)
    (hbg : sh.bgFlag = 1)
    (hcount : sh.argCount = ((front ++ [['&']]).length : Int))
    (hlt : ['<'] ∉ front) (hgt : ['>'] ∉ front) :
    ∃ sink : OpenFile, sink.path = devNull.path ∧ sysWrite sink = WriteResult.discarded ∧
      redirectAndExec k sh ⟨(front ++ [['&']]).map some ++ [none], si, so, d⟩ =
        if k.openOk sink = false then ChildEnd.exit "open" EXIT_FAILURE
        else if k.dup2Ok sink 0 = false then ChildEnd.exit "dup2" EXIT_FAILURE
        else if k.dup2Ok sink 1 = false then ChildEnd.exit "dup2" EXIT_FAILURE
        else
          ChildEnd.execvp front.head? front (some sink) (some sink) d
            (k.execOk front.head? front) := by
  have h1 : ['<'] ∉ front ++ [['&']] := by
    simp only [List.mem_append, List.mem_singleton, not_or]
    exact ⟨hlt, by decide⟩
  have h2 : ['>'] ∉ front ++ [['&']] := by
    simp only [List.mem_append, List.mem_singleton, not_or]
    exact ⟨hgt, by decide⟩
  refine ⟨devNull, rfl, by decide, ?_⟩
  rw [redirectAndExec_background k sh (front ++ [['&']]) si so d h1 h2 hbg hcount (by simp)]
  simp

/-- Instance of the background theorem: the vector `sleep 5 &`. -/
theorem background_null_sink_and_strip_witness :
    ∃ sink : OpenFile, sink.path = devNull.path ∧ sysWrite sink = WriteResult.discarded ∧
      redirectAndExec (Kernel.answering "sleep 5 &\n" 0)
          { Shell.initial with bgFlag := 1, argCount := 3 }
          ⟨[some ['s', 'l', 'e', 'e', 'p'], some ['5'], some ['&'], none], none, none,
            Disposition.SIG_IGN⟩ =
        ChildEnd.execvp (some ['s', 'l', 'e', 'e', 'p']) [['s', 'l', 'e', 'e', 'p'], ['5']]
          (some sink) (some sink) Disposition.SIG_IGN true := by
  obtain ⟨sink, hp, hw, h⟩ := background_null_sink_and_strip
    (Kernel.answering "sleep 5 &\n" 0) { Shell.initial with bgFlag := 1, argCount := 3 }
    [['s', 'l', 'e', 'e', 'p'], ['5']] none none Disposition.SIG_IGN
    (by decide) (by decide) (by decide) (by decide)
  exact ⟨sink, hp, hw, h.trans (by simp [Kernel.answering])⟩

/-! ## Argument vector after stripping (C9) -/

/-- C9, as stated, fails on three lines.  On `cat < in -n` the child hands execvp the
vector `cat` alone: the token `-n`, which is no marker, filename or `&`, is not kept.  On
`sort > out < in` it hands execvp the vector `sort > out`, which holds the `>` marker and
the output filename.  On `echo a&b c`, a line with no marker, it hands execvp the vector
`echo a&b`: the last token is dropped although it is not `&`. -/
theorem stripped_argv_counterexample :
    maximalRuns (cString (Kernel.answering "cat < in -n\n" 0).getline) =
        [['c', 'a', 't'], ['<'], ['i', 'n'], ['-', 'n']]
      ∧ (runLine (Kernel.answering "cat < in -n\n" 0) Shell.initial).execArgv =
        some [['c', 'a', 't']]
      ∧ maximalRuns (cString (Kernel.answering "sort > out < in\n" 0).getline) =
        [['s', 'o', 'r', 't'], ['>'], ['o', 'u', 't'], ['<'], ['i', 'n']]
      ∧ (runLine (Kernel.answering "sort > out < in\n" 0) Shell.initial).execArgv =
        some [['s', 'o', 'r', 't'], ['>'], ['o', 'u', 't']]
      ∧ maximalRuns (cString (Kernel.answering "echo a&b c\n" 0).getline) =
        [['e', 'c', 'h', 'o'], ['a', '&', 'b'], ['c']]
      ∧ (runLine (Kernel.answering "echo a&b c\n" 0) Shell.initial).execArgv =
        some [['e', 'c', 'h', 'o'], ['a', '&', 'b']] := by
  decide

/-- C9, amended: take an external-command line of at most 511 tokens in which each
redirection marker is followed by a token, no `>` token comes before the first `<` token,
and, when the line has no marker, a `&` character occurs only if the last token is `&`;
let the open and the dup2 calls that the line's redirection performs succeed.  Then the
vector handed to execvp is the tokens before the first redirection marker or, on a line
without marker, every token but the trailing `&`: it holds no `<` and no `>` token and is
an initial segment of the line's tokens, in their order. -/
theorem stripped_argv_is_tokens_before_marker (k : Kernel) (sh : Shell) (cmd : CString)
    (rest : List CString)
    (hchild : k.fork = 0)
    (htoks : maximalRuns (cString k.getline) = cmd :: rest)
    (h511 : (cmd :: rest).length ≤ 511)
    (hcomment : '#' ∉ cmd) (hcd : cmd ≠ ['c', 'd']) (hexit : cmd ≠ ['e', 'x', 'i', 't'])
    (hstatus : cmd ≠ ['s', 't', 'a', 't', 'u', 's'])
    (hfollow : ∀ i, i < (cmd :: rest).length →
      ((cmd :: rest).get? i = some ['<'] ∨ (cmd :: rest).get? i = some ['>']) →
      i + 1 < (cmd :: rest).length)
    (horder : ['<'] ∈ cmd :: rest →
      ['>'] ∉ (cmd :: rest).take ((cmd :: rest).indexOf ['<']))
    (hamp : ['<'] ∉ cmd :: rest → ['>'] ∉ cmd :: rest → '&' ∈ cString k.getline →
      (cmd :: rest).getLast? = some ['&'])
    (hin : ∀ f, ['<'] ∈ cmd :: rest →
      (cmd :: rest).get? ((cmd :: rest).indexOf ['<'] + 1) = some f →
      k.openOk ⟨f, [OFlag.O_RDONLY], none⟩ = true ∧
        k.dup2Ok ⟨f, [OFlag.O_RDONLY], none⟩ 0 = true)
    (hout : ∀ g, ['<'] ∉ cmd :: rest → ['>'] ∈ cmd :: rest →
      (cmd :: rest).get? ((cmd :: rest).indexOf ['>'] + 1) = some g →
      k.openOk ⟨g, [OFlag.O_WRONLY, OFlag.O_CREAT, OFlag.O_TRUNC], some 0o664⟩ = true ∧
        k.dup2Ok ⟨g, [OFlag.O_WRONLY, OFlag.O_CREAT, OFlag.O_TRUNC], some 0o664⟩ 1 = true)
    (hnull : ['<'] ∉ cmd :: rest → ['>'] ∉ cmd :: rest → '&' ∈ cString k.getline →
      k.openOk devNull = true ∧ k.dup2Ok devNull 0 = true ∧ k.dup2Ok devNull 1 = true) :
    ∃ argv, (runLine k sh).execArgv = some argv
      ∧ argv =
        (if ['<'] ∈ cmd :: rest then (cmd :: rest).take ((cmd :: rest).indexOf ['<'])
         else if ['>'] ∈ cmd :: rest then (cmd :: rest).take ((cmd :: rest).indexOf ['>'])
         else if (cmd :: rest).getLast? = some ['&'] then (cmd :: rest).dropLast
         else cmd :: rest)
      ∧ ['<'] ∉ argv ∧ ['>'] ∉ argv ∧ ∃ n, argv = (cmd :: rest).take n := by
  by_cases hlt : ['<'] ∈ cmd :: rest
  · obtain ⟨f, hf⟩ := get?_indexOf_add_one ['<'] (cmd :: rest)
      (hfollow _ (indexOf_lt _ _ hlt) (Or.inl (get?_indexOf_self _ _ hlt)))
    obtain ⟨ho, hd⟩ := hin f hlt hf
    refine ⟨(cmd :: rest).take ((cmd :: rest).indexOf ['<']), ?_, by rw [if_pos hlt],
      not_mem_take_indexOf _ _, horder hlt, ⟨_, rfl⟩⟩
    by_cases hampc : '&' ∈ cString k.getline
    · rw [runLine_background k sh cmd rest hchild htoks h511 hcomment hcd hexit hstatus hampc,
        redirectAndExec_input k _ (cmd :: rest) none none _ f hlt hf]
      simp [ho, hd, Outcome.execArgv]
    · rw [runLine_foreground k sh cmd rest hchild htoks h511 hcomment hcd hexit hstatus hampc,
        redirectAndExec_input k _ (cmd :: rest) none none _ f hlt hf]
      simp [ho, hd, Outcome.execArgv]
  · by_cases hgt : ['>'] ∈ cmd :: rest
    · obtain ⟨g, hg⟩ := get?_indexOf_add_one ['>'] (cmd :: rest)
        (hfollow _ (indexOf_lt _ _ hgt) (Or.inr (get?_indexOf_self _ _ hgt)))
      obtain ⟨ho, hd⟩ := hout g hlt hgt hg
      refine ⟨(cmd :: rest).take ((cmd :: rest).indexOf ['>']), ?_,
        by rw [if_neg hlt, if_pos hgt], fun h => hlt (List.mem_of_mem_take h),
        not_mem_take_indexOf _ _, ⟨_, rfl⟩⟩
      by_cases hampc : '&' ∈ cString k.getline
      · rw [runLine_background k sh cmd rest hchild htoks h511 hcomment hcd hexit hstatus
            hampc,
          redirectAndExec_output k _ (cmd :: rest) none none _ g hlt hgt hg]
        simp [ho, hd, Outcome.execArgv]
      · rw [runLine_foreground k sh cmd rest hchild htoks h511 hcomment hcd hexit hstatus
            hampc,
          redirectAndExec_output k _ (cmd :: rest) none none _ g hlt hgt hg]
        simp [ho, hd, Outcome.execArgv]
    · by_cases hlast : (cmd :: rest).getLast? = some ['&']
      · have hmem : ['&'] ∈ maximalRuns (cString k.getline) := by
          rw [htoks]; exact List.mem_of_getLast?_eq_some hlast
        have hampc : '&' ∈ cString k.getline :=
          mem_line_of_mem_token _ _ hmem '&' (List.mem_singleton_self _)
        obtain ⟨ho, hd0, hd1⟩ := hnull hlt hgt hampc
        refine ⟨(cmd :: rest).dropLast, ?_, by rw [if_neg hlt, if_neg hgt, if_pos hlast],
          fun h => hlt (List.mem_of_mem_dropLast h),
          fun h => hgt (List.mem_of_mem_dropLast h), ⟨_, List.dropLast_eq_take _⟩⟩
        rw [runLine_background k sh cmd rest hchild htoks h511 hcomment hcd hexit hstatus
            hampc,
          redirectAndExec_background k _ (cmd :: rest) none none _ hlt hgt rfl rfl (by simp)]
        simp [ho, hd0, hd1, Outcome.execArgv]
      · have hampc : '&' ∉ cString k.getline := fun h => hlast (hamp hlt hgt h)
        refine ⟨cmd :: rest, ?_, by rw [if_neg hlt, if_neg hgt, if_neg hlast], hlt, hgt,
          ⟨(cmd :: rest).length, (List.take_length _).symm⟩⟩
        rw [runLine_foreground k sh cmd rest hchild htoks h511 hcomment hcd hexit hstatus
            hampc,
          redirectAndExec_plain k _ (cmd :: rest) none none _ hlt hgt (by simp)]
        rfl

/-- Instance of the stripping theorem: the line `wc -l < in > out &`. -/
theorem stripped_argv_is_tokens_before_marker_witness :
    (runLine (Kernel.answering "wc -l < in > out &\n" 0) Shell.initial).execArgv =
      some [['w', 'c'], ['-', 'l']] := by
  obtain ⟨argv, h1, h2, _⟩ := stripped_argv_is_tokens_before_marker
    (Kernel.answering "wc -l < in > out &\n" 0)
    Shell.initial ['w', 'c'] [['-', 'l'], ['<'], ['i', 'n'], ['>'], ['o', 'u', 't'], ['&']]
    (by decide) (by decide) (by decide) (by decide) (by decide) (by decide) (by decide)
    (by decide) (by decide) (by decide) (fun _ _ _ => ⟨rfl, rfl⟩) (fun _ _ _ _ => ⟨rfl, rfl⟩)
    (fun _ _ _ => ⟨rfl, rfl, rfl⟩)
  rw [h1, h2]
  decide

/-! ## Dispatcher (C6, C7) -/

/-- C6 fails on the code for every external command: on the line `ls`, run in the
foreground with fork returning pid 7 to the shell, runArgs calls runProcess and reaches its
closing brace without a return statement, so it hands doShell no value at all instead of
the non-zero continue signal. -/
theorem runArgs_external_returns_no_value :
    runLine (Kernel.answering "ls\n" 7) Shell.initial =
      Outcome.returned { Shell.initial with argCount := 1 }
        [Event.printf ": " [], Event.fork 7] RetVal.indeterminate := by
  decide

/-- C7 fails on the code for a command whose name holds a `#` after its first character:
on the vector whose only token is `a#b`, which does not start with `#` and is none of
`cd`, `status`, `exit`, the comment test of runArgs, a substring search for `#`, succeeds
and runArgs returns 1 at once; the command is never handed to runProcess, which would
have forked. -/
theorem runArgs_skips_command_holding_hash :
    ['a', '#', 'b'].head? ≠ some '#'
      ∧ runArgs (Kernel.answering "a#b\n" 7) Shell.initial [some ['a', '#', 'b'], none] =
        Outcome.returned Shell.initial [] (RetVal.value 1)
      ∧ (runProcess (Kernel.answering "a#b\n" 7) Shell.initial
          [some ['a', '#', 'b'], none]).withoutValue =
        Outcome.returned Shell.initial [Event.fork 7] RetVal.indeterminate := by
  decide

/-! ## Status built-in (C8) -/

/-- C8 fails on the code for a child killed by a signal with a core dump: when the
foreground child is killed by signal 11 and dumps core, waitpid stores the wait status 139,
and builtin_status prints `terminated by signal: 139`, the raw status, while the signal
number WTERMSIG gives is 11 (the value checkBG prints for a background child). -/
theorem status_prints_raw_wait_status :
    runProcess { Kernel.answering "crash\n" 7 with waitpid := fun _ => 139 } Shell.initial
        [some ['c', 'r', 'a', 's', 'h'], none] =
      Outcome.returned { Shell.initial with status := 139 } [Event.fork 7] (RetVal.value 1)
    ∧ builtin_status (Kernel.answering "status\n" 7) { Shell.initial with status := 139 } =
      Outcome.returned { Shell.initial with status := 139 }
        [Event.printf "terminated by signal: %d\n" [139]] (RetVal.value 1)
    ∧ glibcWait.WIFSIGNALED 139 = true
    ∧ glibcWait.WTERMSIG 139 = 11 := by
  decide

/-! ## Background job set (C10) -/

/-- C10 fails on the code: runProcess appends to bgArray without a bounds check.  After one
hundred cycles that each launch `sleep 1 &`, bgCount is 100; the next such cycle stores
the pid in bgArray[100], outside the one hundred slots. -/
theorem background_append_overflows :
    (doShell 1 (List.replicate 100 (Kernel.answering "sleep 1 &\n" 7)) Shell.initial []).bgCount
        = some 100
    ∧ doShell 1 (List.replicate 101 (Kernel.answering "sleep 1 &\n" 7)) Shell.initial [] =
        Run.stopped (Outcome.fault Fault.outOfBounds)
    ∧ runProcess (Kernel.answering "sleep 1 &\n" 7)
        { Shell.initial with bgFlag := 1, argCount := 3, bgCount := 100 }
        [some ['s', 'l', 'e', 'e', 'p'], some ['1'], some ['&'], none] =
      Outcome.fault Fault.outOfBounds := by
  refine ⟨?_, ?_, by decide⟩
  · obtain ⟨sh1, out1, h1, h2, _⟩ :=
      sleep_cycles_count 100 Shell.initial [] 0 rfl (by decide) (by decide)
    rw [h1]
    simp [Run.bgCount, h2]
  · exact sleep_cycles_overflow 100 Shell.initial [] 0 rfl (by decide) (by decide)

end Smallsh
